import Mathlib

/-!
Verification of the schema-genius content-understanding and schema-synthesis
pipeline (scraped-content NLP analysis, knowledge-graph construction, vector
embeddings, ML schema recommendation, JSON-LD assembly).

The TypeScript sources are shallowly embedded: JavaScript numbers are modelled
as exact rationals where every operation involved is rational, and as real
numbers where `Math.sqrt`/`Math.log` occur; JavaScript `Map`s are association
lists in insertion order; the small fixed regular expressions of the code are
embedded as explicit scanners with JavaScript semantics (leftmost,
non-overlapping, case-insensitive where the `i` flag is set, `\b` word
boundaries tracked through the previous character).
-/

namespace SchemaGenius

/-! ### JavaScript string primitives -/

/-- JS whitespace class `\s` restricted to ASCII, which is all this code base
exercises. -/
def jsSpace (c : Char) : Bool :=
  c = ' ' || c = '\t' || c = '\n' || c = '\r' || c = '\x0b' || c = '\x0c'

/-- JS word-character class `\w`: ASCII letters, digits and underscore. -/
def jsWord (c : Char) : Bool := c.isAlpha || c.isDigit || c = '_'

/-- JS `String.prototype.toLowerCase` (ASCII). -/
def jsLower (s : String) : String := String.mk (s.toList.map Char.toLower)

/-- JS `String.prototype.trim`: strip leading and trailing whitespace. -/
def jsTrim (s : String) : String :=
  String.mk (((s.toList.dropWhile jsSpace).reverse.dropWhile jsSpace).reverse)

/-- Boolean prefix test on character lists. -/
def listIsPrefix : List Char → List Char → Bool
  | [], _ => true
  | _ :: _, [] => false
  | p :: ps, c :: cs => p = c && listIsPrefix ps cs

/-- Boolean infix test on character lists. -/
def listIsInfix (pat : List Char) : List Char → Bool
  | [] => pat.isEmpty
  | c :: cs => listIsPrefix pat (c :: cs) || listIsInfix pat cs

/-- JS `String.prototype.includes`. -/
def jsIncludes (s sub : String) : Bool := listIsInfix sub.toList s.toList

/-! ### Regular-expression scanners

A `Matcher` consumes a prefix of the input and yields the last character it
consumed (`none` when it consumed nothing) together with the rest; this is
enough to thread JS `\b` word-boundary information through a scan. -/

/-- One match attempt at the current position. -/
abbrev Matcher := List Char → Option (Option Char × List Char)

/-- Match a literal, case-insensitively (the `i` flag). -/
def mlitCI : List Char → Matcher
  | [], s => some (none, s)
  | _ :: _, [] => none
  | p :: ps, c :: cs =>
    if c.toLower = p.toLower then
      match mlitCI ps cs with
      | some (last, rest) => some (some (last.getD c), rest)
      | none => none
    else none

/-- Match a single character of a class. -/
def mclass (p : Char → Bool) : Matcher
  | c :: cs => if p c then some (some c, cs) else none
  | [] => none

/-- Greedily match zero or more characters of a class (`X*`). -/
def mmany (p : Char → Bool) : Matcher := fun s =>
  let t := s.takeWhile p
  some (t.getLast?, s.drop t.length)

/-- Sequence two matchers. -/
def mseq (a b : Matcher) : Matcher := fun s =>
  match a s with
  | none => none
  | some (la, s1) =>
    match b s1 with
    | none => none
    | some (lb, s2) => some ((lb.orElse fun _ => la), s2)

/-- Greedily match one or more characters of a class (`X+`). -/
def mmany1 (p : Char → Bool) : Matcher := mseq (mclass p) (mmany p)

/-- Alternation: try the left alternative first, as JS does. -/
def malt (a b : Matcher) : Matcher := fun s => (a s).orElse fun _ => b s

/-- Optional prefix followed by a continuation, with JS backtracking: the
greedy parse is preferred, and on failure of the continuation the empty parse
is retried. -/
def moptSeq (a k : Matcher) : Matcher := fun s =>
  (mseq a k s).orElse fun _ => k s

/-- Does the pattern match starting at some position?  Implements
`RegExp.prototype.test`; `m` receives the character preceding the position so
patterns can check a leading `\b`. -/
def scanTest (m : Option Char → List Char → Bool) : Option Char → List Char → Bool
  | _, [] => false
  | prev, c :: cs => m prev (c :: cs) || scanTest m (some c) cs

/-- Count leftmost non-overlapping matches, as `String.prototype.match` with
the `g` flag does.  The fuel argument only serves termination; it is always
sufficient because every pattern in this code base consumes at least one
character. -/
def scanCountFuel (m : Option Char → Matcher) : Nat → Option Char → List Char → Nat
  | 0, _, _ => 0
  | _ + 1, _, [] => 0
  | fuel + 1, prev, c :: cs =>
    match m prev (c :: cs) with
    | some (last, rest) => 1 + scanCountFuel m fuel (last.orElse fun _ => some c) rest
    | none => scanCountFuel m fuel (some c) cs

/-- Count of matches of a boundary-aware pattern in a string. -/
def scanCount (m : Option Char → Matcher) (s : List Char) : Nat :=
  scanCountFuel m (s.length + 1) none s

/-- A matcher that also returns two captured groups, for the step-extraction
patterns (which use no `\b`). -/
abbrev GMatcher := List Char → Option (String × String × List Char)

/-- Leftmost non-overlapping matches with captures, as `String.prototype.matchAll`.
Fuel as in `scanCountFuel`. -/
def scanAllFuel (m : GMatcher) : Nat → List Char → List (String × String)
  | 0, _ => []
  | _ + 1, [] => []
  | fuel + 1, c :: cs =>
    match m (c :: cs) with
    | some (g1, g2, rest) => (g1, g2) :: scanAllFuel m fuel rest
    | none => scanAllFuel m fuel cs

/-- All matches with captures in a string. -/
def scanAll (m : GMatcher) (s : List Char) : List (String × String) :=
  scanAllFuel m (s.length + 1) s

/-! ## Schema assembler (`app/lib/schema/enhanced-generator.ts`, latest
iteration): HowTo gating and step extraction -/

/-- Pattern `/step\s+\d+/gi` of `isRealHowToContent`. -/
def stepNumPat : Matcher :=
  mseq (mlitCI "step".toList) (mseq (mmany1 jsSpace) (mmany1 Char.isDigit))

/-- Pattern `/\d+\.\s+[A-Z]/g` of `isRealHowToContent` (case-sensitive: no
`i` flag on this one). -/
def numberedListPat : Matcher :=
  mseq (mmany1 Char.isDigit)
    (mseq (mclass (· = '.')) (mseq (mmany1 jsSpace) (mclass Char.isUpper)))

/-- Character class `[,:\s]`. -/
def sepClass (c : Char) : Bool := c = ',' || c = ':' || jsSpace c

/-- Patterns `/first(?:ly)?[,:\s]+[A-Z]/gi` and `/second(?:ly)?[,:\s]+[A-Z]/gi`;
under the `i` flag `[A-Z]` matches any ASCII letter. -/
def seqWordLyPat (w : String) : Matcher :=
  mseq (mlitCI w.toList)
    (moptSeq (mlitCI "ly".toList) (mseq (mmany1 sepClass) (mclass Char.isAlpha)))

/-- Patterns `/then[,:\s]+[A-Z]/gi`, `/next[,:\s]+[A-Z]/gi`,
`/finally[,:\s]+[A-Z]/gi`. -/
def seqWordPat (w : String) : Matcher :=
  mseq (mlitCI w.toList) (mseq (mmany1 sepClass) (mclass Char.isAlpha))

/-- Existence of a match of `m` anywhere in `s` (these patterns use no `\b`,
so the previous character is irrelevant). -/
def testPat (m : Matcher) (s : List Char) : Bool :=
  scanTest (fun _ t => (m t).isSome) none s

/-- `EnhancedSchemaGenerator.isRealHowToContent` (part of the HowTo gate of
`buildSchema`): requires "how to" or "step-by-step" in the title and at least
two distinct step-indicator pattern families in the content. -/
def isRealHowToContent (title content : String) : Bool :=
  let titleLower := jsLower title
  if !(jsIncludes titleLower "how to") && !(jsIncludes titleLower "step-by-step") then
    false
  else
    let cl := content.toList
    let indicators : List Bool :=
      [testPat stepNumPat cl,
       testPat numberedListPat cl,
       testPat (seqWordLyPat "first") cl,
       testPat (seqWordLyPat "second") cl,
       testPat (seqWordPat "then") cl,
       testPat (seqWordPat "next") cl,
       testPat (seqWordPat "finally") cl]
    2 ≤ indicators.countP id

/-- Body of the numbered-step pattern after the optional `step\s*` prefix:
`(\d+)[\s.:)]+([A-Z][^.!?\n]+[.!?])`; under the `i` flag `[A-Z]` matches any
ASCII letter. -/
def numCore (s : List Char) : Option (String × String × List Char) :=
  let digits := s.takeWhile Char.isDigit
  if digits.isEmpty then none
  else
    let s1 := s.drop digits.length
    let sep := s1.takeWhile fun c => jsSpace c || c = '.' || c = ':' || c = ')'
    if sep.isEmpty then none
    else
      match s1.drop sep.length with
      | [] => none
      | c :: cs =>
        if c.isAlpha then
          let body := cs.takeWhile fun d => !(d = '.' || d = '!' || d = '?' || d = '\n')
          if body.isEmpty then none
          else
            match cs.drop body.length with
            | [] => none
            | t :: rest =>
              if t = '.' || t = '!' || t = '?' then
                some (String.mk digits, String.mk (c :: body ++ [t]), rest)
              else none
        else none

/-- The numbered-step pattern `/(?:step\s*)?(\d+)[\s.:)]+([A-Z][^.!?\n]+[.!?])/gi`
with JS backtracking over the optional prefix. -/
def numberedStepMatch : GMatcher := fun s =>
  match mseq (mlitCI "step".toList) (mmany jsSpace) s with
  | some (_, s1) => (numCore s1).orElse fun _ => numCore s
  | none => numCore s

/-- Sequential words of the fallback step pattern. -/
def sequentialWords : List String :=
  ["first", "second", "third", "fourth", "fifth", "then", "next", "after that", "finally"]

/-- Body after a sequential word: `[\s,:]([A-Z][^.!?\n]+[.!?])`. -/
def seqCore (w : List Char) (s : List Char) : Option (String × String × List Char) :=
  match mlitCI w s with
  | none => none
  | some (_, s1) =>
    match s1 with
    | [] => none
    | c0 :: cs0 =>
      if jsSpace c0 || c0 = ',' || c0 = ':' then
        match cs0 with
        | [] => none
        | c :: cs =>
          if c.isAlpha then
            let body := cs.takeWhile fun d => !(d = '.' || d = '!' || d = '?' || d = '\n')
            if body.isEmpty then none
            else
              match cs.drop body.length with
              | [] => none
              | t :: rest =>
                if t = '.' || t = '!' || t = '?' then
                  some (String.mk w, String.mk (c :: body ++ [t]), rest)
                else none
          else none
      else none

/-- The fallback pattern
`/(first|second|third|fourth|fifth|then|next|after that|finally)[\s,:]([A-Z][^.!?\n]+[.!?])/gi`,
trying the alternatives in source order. -/
def sequentialStepMatch : GMatcher := fun s =>
  sequentialWords.foldr (fun w acc => (seqCore w.toList s).orElse fun _ => acc) none

/-- A `HowToStep` node of the assembled JSON-LD. -/
structure HowToStep where
  position : Nat
  name : String
  text : String
deriving Repr, DecidableEq

/-- JS `parseInt` on a non-empty digit string. -/
def digitsToNat (s : String) : Nat :=
  s.toList.foldl (fun n c => n * 10 + (c.toNat - '0'.toNat)) 0

/-- Build steps from the numbered matches: dedup by lowercased text, keep only
texts longer than 20 characters, position `parseInt(match[1]) || (index+1)`
(JS `0` is falsy, hence the zero fallback). -/
def buildNumberedSteps : List (String × String) → Nat → List String → List HowToStep
  | [], _, _ => []
  | (g1, g2) :: ms, idx, seen =>
    let stepText := jsTrim g2
    if !(seen.contains (jsLower stepText)) && stepText.length > 20 then
      let n := digitsToNat g1
      { position := if n = 0 then idx + 1 else n
        name := "Step " ++ g1
        text := stepText } ::
        buildNumberedSteps ms (idx + 1) (jsLower stepText :: seen)
    else
      buildNumberedSteps ms (idx + 1) seen

/-- Build steps from the sequential-word matches: dedup by lowercased text,
keep only texts longer than 20 characters; position and name come from the
`forEach` match index (`index + 1`), which counts every match, filtered ones
included. -/
def buildSequentialSteps : List (String × String) → Nat → List String → List HowToStep
  | [], _, _ => []
  | (_, g2) :: ms, idx, seen =>
    let stepText := jsTrim g2
    if !(seen.contains (jsLower stepText)) && stepText.length > 20 then
      { position := idx + 1
        name := "Step " ++ toString (idx + 1)
        text := stepText } ::
        buildSequentialSteps ms (idx + 1) (jsLower stepText :: seen)
    else
      buildSequentialSteps ms (idx + 1) seen

/-- Stable insertion of a step into a position-sorted list (JS `sort` is
stable; comparator `a.position - b.position`). -/
def insertByPosition (x : HowToStep) : List HowToStep → List HowToStep
  | [] => [x]
  | y :: ys => if y.position ≤ x.position then y :: insertByPosition x ys else x :: y :: ys

/-- Stable sort by ascending position: earlier list elements are inserted
first and `insertByPosition` keeps them in front of later equals. -/
def sortByPosition (l : List HowToStep) : List HowToStep :=
  l.foldl (fun acc x => insertByPosition x acc) []

/-- `EnhancedSchemaGenerator.extractRealSteps`: numbered steps first; the
sequential-word fallback runs whenever `steps.length === 0` after the
numbered pass — that is, also when numbered matches existed but were all
filtered out by the dedup/20-character gate.  (The source's
`if (numberedMatches.length > 0)` wrapper only skips a no-op `forEach`, so
it needs no separate branch.)  `seenSteps` is empty whenever the fallback
runs, since entries are added exactly when a step is pushed.  Finally sort
by position (stable) and cap at 15. -/
def extractRealSteps (content : String) : List HowToStep :=
  let numberedSteps :=
    buildNumberedSteps (scanAll numberedStepMatch content.toList) 0 []
  let steps :=
    if numberedSteps.length = 0 then
      buildSequentialSteps (scanAll sequentialStepMatch content.toList) 0 []
    else numberedSteps
  (sortByPosition steps).take 15

/-- The `@type` / `step` outcome of `buildSchema`. -/
structure SchemaTop where
  atType : List String
  step : List HowToStep
deriving Repr, DecidableEq

/-- Base `@type` resolution of `buildSchema` ((lines 35-43): URL `/blog`
hints first, then the analysis content type, default `Article`). -/
def baseSchemaType (url contentType : String) : String :=
  if jsIncludes url "/blog" || jsIncludes url "/blogs" then "BlogPosting"
  else if contentType = "Review" then "Review"
  else if contentType = "ScholarlyArticle" then "ScholarlyArticle"
  else "Article"

/-- The HowTo augmentation of `buildSchema` (lines 179-192): only when
`isRealHowToContent` holds and between 3 and 19 steps were extracted does the
schema get `@type [base, HowTo]` and a `step` array; otherwise the scalar base
type stands and `step` is omitted (modelled as the empty list). -/
def buildSchemaTypeAndStep (url title content contentType : String) : SchemaTop :=
  let schemaType := baseSchemaType url contentType
  if isRealHowToContent title content then
    let steps := extractRealSteps content
    if steps.length > 2 && steps.length < 20 then
      { atType := [schemaType, "HowTo"], step := steps }
    else
      { atType := [schemaType], step := [] }
  else
    { atType := [schemaType], step := [] }

/-- Scenario title of the spec. -/
def bongTitle : String := "How to Clean a Bong: Step-by-Step Guide"

/-- Scenario content of the spec: the three step sentences. -/
def bongContent : String :=
  "Step 1: Rinse with water. Step 2: Add alcohol. Step 3: Shake and repeat."

/-- C1 (counterexample): on the scenario input (title
"How to Clean a Bong: Step-by-Step Guide", content consisting of the three
step sentences) the assembled schema does NOT carry a `HowTo` `@type` and the
`step` property IS omitted: only the `step N` indicator family matches the
content, so `isRealHowToContent` (which demands at least two families) rejects
it; the claimed `@type` array with `HowTo` and 3-element `step` array do not
arise. -/
theorem c1_counterexample :
    "HowTo" ∉ (buildSchemaTypeAndStep "https://example.com/blog/how-to-clean-a-bong"
        bongTitle bongContent "HowTo").atType ∧
    (buildSchemaTypeAndStep "https://example.com/blog/how-to-clean-a-bong"
        bongTitle bongContent "HowTo").step = [] := by
  constructor
  · intro h
    exact absurd (by decide :
      (buildSchemaTypeAndStep "https://example.com/blog/how-to-clean-a-bong"
        bongTitle bongContent "HowTo").atType = ["BlogPosting"]) (by
          rw [show (buildSchemaTypeAndStep "https://example.com/blog/how-to-clean-a-bong"
            bongTitle bongContent "HowTo").atType = ["BlogPosting"] from by decide] at h
          intro _
          exact absurd h (by decide))
  · decide

/-- C1 (amended): for the scenario input the HowTo gate fails — only one
step-indicator family fires and every extracted candidate step text is at most
20 characters — so for every URL and content classification the assembled
schema keeps its scalar base `@type` and omits `step`. -/
theorem c1_step_gate_rejects_scenario :
    isRealHowToContent bongTitle bongContent = false ∧
    extractRealSteps bongContent = [] ∧
    ∀ url contentType : String,
      (buildSchemaTypeAndStep url bongTitle bongContent contentType).atType =
          [baseSchemaType url contentType] ∧
      (buildSchemaTypeAndStep url bongTitle bongContent contentType).step = [] := by
  refine ⟨by decide, by decide, fun url contentType => ?_⟩
  unfold buildSchemaTypeAndStep
  rw [show isRealHowToContent bongTitle bongContent = false from by decide]
  exact ⟨rfl, rfl⟩

/-! ## Schema assembler: entity typing for `about` and `mentions` -/

/-- An extracted entity as consumed by the schema generators.  `context` is a
string whose emptiness models JS falsiness of a missing context; the unused
`synonyms`/`category`/`wikidata_id` fields of the source record play no role
in any claim and are omitted. -/
structure Entity where
  name : String
  etype : String
  confidence : ℚ
  context : String
deriving Repr, DecidableEq

/-- The `typeMapping` record of `EnhancedSchemaGenerator.getProperSchemaType`
(latest `enhanced-generator.ts`). -/
def properTypeMapping : List (String × String) :=
  [("concept", "Thing"), ("product", "Product"), ("service", "Service"),
   ("organization", "Organization"), ("person", "Person"), ("location", "Place"),
   ("event", "Event"), ("medical", "MedicalEntity"), ("fitness", "Thing"),
   ("material", "Product")]

/-- `EnhancedSchemaGenerator.getProperSchemaType`: map the entity type through
the record, defaulting to `Thing`. -/
def getProperSchemaType (entity : Entity) : String :=
  (properTypeMapping.lookup entity.etype).getD "Thing"

/-- The `wikipediaMap` of `EnhancedSchemaGenerator.getWikipediaUrl`. -/
def wikipediaMap : List (String × String) :=
  [("VO2 Max", "https://en.wikipedia.org/wiki/VO2_max"),
   ("High-Intensity Interval Training",
    "https://en.wikipedia.org/wiki/High-intensity_interval_training"),
   ("HIIT", "https://en.wikipedia.org/wiki/High-intensity_interval_training"),
   ("Bong", "https://en.wikipedia.org/wiki/Bong"),
   ("Odoo", "https://en.wikipedia.org/wiki/Odoo"),
   ("ERP", "https://en.wikipedia.org/wiki/Enterprise_resource_planning"),
   ("Borosilicate Glass", "https://en.wikipedia.org/wiki/Borosilicate_glass"),
   ("Cannabis", "https://en.wikipedia.org/wiki/Cannabis"),
   ("Hydroxyapatite", "https://en.wikipedia.org/wiki/Hydroxyapatite")]

/-- `EnhancedSchemaGenerator.getWikipediaUrl`. -/
def getWikipediaUrl (entityName : String) : Option String :=
  wikipediaMap.lookup entityName

/-- An element of the `about` or `mentions` arrays of the assembled JSON-LD.
An empty `sameAs` and a `none` description model the absent keys. -/
structure AboutEntity where
  atType : String
  name : String
  sameAs : List String
  description : Option String
deriving Repr, DecidableEq

/-- Loop of `EnhancedSchemaGenerator.createAboutEntities`: walk the main
concepts, skip lowercased duplicates, and emit the first entity whose name
equals the concept, typed via `getProperSchemaType`, with a Wikipedia `sameAs`
only above confidence 0.85 and a description only for a truthy context. -/
def createAboutEntitiesGo : List String → List Entity → List String → List AboutEntity
  | [], _, _ => []
  | concept :: rest, entities, seen =>
    if seen.contains (jsLower concept) then
      createAboutEntitiesGo rest entities seen
    else
      let seen' := jsLower concept :: seen
      match entities.find? (fun e => e.name = concept) with
      | some entity =>
        { atType := getProperSchemaType entity
          name := entity.name
          sameAs :=
            if entity.confidence > mkRat 85 100 then
              match getWikipediaUrl entity.name with
              | some u => [u]
              | none => []
            else []
          description := if entity.context = "" then none else some entity.context } ::
          createAboutEntitiesGo rest entities seen'
      | none => createAboutEntitiesGo rest entities seen'

/-- `EnhancedSchemaGenerator.createAboutEntities`. -/
def createAboutEntities (mainConcepts : List String) (entities : List Entity) :
    List AboutEntity :=
  createAboutEntitiesGo mainConcepts entities []

/-- Loop of `EnhancedSchemaGenerator.createMentions`: every entity not yet
seen (by lowercased name) becomes a mention typed via `getProperSchemaType`. -/
def createMentionsGo : List Entity → List String → List AboutEntity
  | [], _ => []
  | entity :: rest, seen =>
    if seen.contains (jsLower entity.name) then
      createMentionsGo rest seen
    else
      { atType := getProperSchemaType entity
        name := entity.name
        sameAs := []
        description := if entity.context = "" then none else some entity.context } ::
        createMentionsGo rest (jsLower entity.name :: seen)

/-- `EnhancedSchemaGenerator.createMentions`. -/
def createMentions (entities : List Entity) : List AboutEntity :=
  createMentionsGo entities []

/-- The `typeMapping` record of `getCorrectSchemaType` in
`advanced-nlp-features.ts` (the other current generator iteration; note the
comment in its source: changed from `SportsActivityLocation`). -/
def correctTypeMapping : List (String × String) :=
  [("concept", "Thing"), ("product", "Product"), ("service", "Service"),
   ("organization", "Organization"), ("person", "Person"), ("location", "Place"),
   ("event", "Event"), ("medical", "MedicalEntity"), ("fitness", "Thing")]

/-- `EnhancedSchemaGenerator.getCorrectSchemaType` of
`advanced-nlp-features.ts`: special-case fitness concepts to `Thing`, then the
generic record, default `Thing`. -/
def getCorrectSchemaType (entity : Entity) (industry : String) : String :=
  if (entity.etype = "fitness" || industry = "fitness") &&
      (jsIncludes entity.name "VO2" || jsIncludes entity.name "Capacity" ||
       jsIncludes entity.name "Training" || jsIncludes entity.name "Heart Rate") then
    "Thing"
  else
    (correctTypeMapping.lookup entity.etype).getD "Thing"

/-- Every element produced by the about-loop is typed by `getProperSchemaType`
applied to an input entity bearing its name. -/
theorem createAboutEntitiesGo_sound (concepts : List String) (entities : List Entity)
    (seen : List String) (x : AboutEntity)
    (hx : x ∈ createAboutEntitiesGo concepts entities seen) :
    ∃ ent, ent ∈ entities ∧ x.name = ent.name ∧ x.atType = getProperSchemaType ent := by
  induction concepts generalizing seen with
  | nil => simp [createAboutEntitiesGo] at hx
  | cons c rest ih =>
    rw [createAboutEntitiesGo] at hx
    by_cases hseen : seen.contains (jsLower c)
    · rw [if_pos hseen] at hx
      exact ih _ hx
    · rw [if_neg hseen] at hx
      cases hfind : entities.find? (fun e => e.name = c) with
      | none =>
        rw [hfind] at hx
        exact ih _ hx
      | some ent =>
        rw [hfind] at hx
        rcases List.mem_cons.mp hx with hx | hx
        · exact ⟨ent, List.mem_of_find?_eq_some hfind, by rw [hx], by rw [hx]⟩
        · exact ih _ hx

/-- Every mention produced by the mentions-loop is typed by
`getProperSchemaType` applied to an input entity bearing its name. -/
theorem createMentionsGo_sound (entities : List Entity) (seen : List String)
    (x : AboutEntity) (hx : x ∈ createMentionsGo entities seen) :
    ∃ ent, ent ∈ entities ∧ x.name = ent.name ∧ x.atType = getProperSchemaType ent := by
  induction entities generalizing seen with
  | nil => simp [createMentionsGo] at hx
  | cons e rest ih =>
    rw [createMentionsGo] at hx
    by_cases hseen : seen.contains (jsLower e.name)
    · rw [if_pos hseen] at hx
      rcases ih _ hx with ⟨ent, hm, h1, h2⟩
      exact ⟨ent, List.mem_cons_of_mem _ hm, h1, h2⟩
    · rw [if_neg hseen] at hx
      rcases List.mem_cons.mp hx with hx | hx
      · exact ⟨e, List.mem_cons_self _ _, by rw [hx], by rw [hx]⟩
      · rcases ih _ hx with ⟨ent, hm, h1, h2⟩
        exact ⟨ent, List.mem_cons_of_mem _ hm, h1, h2⟩

/-- C2: fitness entities are mapped to the Schema.org type `Thing` and never
to a location type (`Place`, `SportsActivityLocation`), in both the `about`
and `mentions` sub-objects of the assembled JSON-LD: both builders type every
element through `getProperSchemaType`, which sends the `fitness` entity type
to `Thing`; the `getCorrectSchemaType` variant of the second current generator
iteration does the same. -/
theorem c2_fitness_entities_typed_thing :
    (∀ e : Entity, e.etype = "fitness" → getProperSchemaType e = "Thing") ∧
    (∀ (e : Entity) (industry : String), e.etype = "fitness" →
      getCorrectSchemaType e industry = "Thing") ∧
    (∀ (mc : List String) (ents : List Entity) (x : AboutEntity),
      x ∈ createAboutEntities mc ents →
      ∃ ent, ent ∈ ents ∧ x.name = ent.name ∧ x.atType = getProperSchemaType ent) ∧
    (∀ (ents : List Entity) (x : AboutEntity), x ∈ createMentions ents →
      ∃ ent, ent ∈ ents ∧ x.name = ent.name ∧ x.atType = getProperSchemaType ent) ∧
    ("Thing" ≠ "Place" ∧ "Thing" ≠ "SportsActivityLocation") := by
  refine ⟨?_, ?_, ?_, ?_, by decide, by decide⟩
  · intro e he
    simp [getProperSchemaType, properTypeMapping, he, List.lookup]
  · intro e ind he
    unfold getCorrectSchemaType
    by_cases hname : (jsIncludes e.name "VO2" || jsIncludes e.name "Capacity" ||
        jsIncludes e.name "Training" || jsIncludes e.name "Heart Rate") = true
    · simp [he, hname]
    · simp only [Bool.not_eq_true] at hname
      simp [he, hname, correctTypeMapping, List.lookup]
  · intro mc ents x hx
    exact createAboutEntitiesGo_sound mc ents [] x hx
  · intro ents x hx
    exact createMentionsGo_sound ents [] x hx

/-- The VO2 Max fitness entity of the spec scenario. -/
def vo2Entity : Entity :=
  { name := "VO2 Max", etype := "fitness", confidence := mkRat 95 100
    context := "cardiovascular fitness measurement" }

/-- The about element the generator produces for the VO2 Max entity. -/
def vo2About : AboutEntity :=
  { atType := "Thing", name := "VO2 Max"
    sameAs := ["https://en.wikipedia.org/wiki/VO2_max"]
    description := some "cardiovascular fitness measurement" }

/-- C2 witness: concrete VO2 Max fitness entity, concrete about list. -/
theorem c2_witness :
    getProperSchemaType vo2Entity = "Thing" ∧
    getCorrectSchemaType vo2Entity "fitness" = "Thing" ∧
    (∃ ent, ent ∈ [vo2Entity] ∧ vo2About.name = ent.name ∧
      vo2About.atType = getProperSchemaType ent) :=
  ⟨c2_fitness_entities_typed_thing.1 vo2Entity (by decide),
   c2_fitness_entities_typed_thing.2.1 vo2Entity "fitness" (by decide),
   c2_fitness_entities_typed_thing.2.2.1 ["VO2 Max"] [vo2Entity] vo2About (by decide)⟩

/-! ## NLP engine (`app/lib/intelligence/nlp-engine.ts`): industry detection
and entity extraction -/

/-- Wordness of an optional character, for `\b` checks (`none` is an input
edge, which counts as non-word). -/
def isWordOpt : Option Char → Bool
  | none => false
  | some c => jsWord c

/-- Append a trailing `\b` to a matcher: the boundary between the last
consumed character and the next input character must separate word from
non-word. -/
def withEndB (m : Matcher) : Matcher := fun s =>
  match m s with
  | some (last, rest) =>
    if isWordOpt last != isWordOpt rest.head? then some (last, rest) else none
  | none => none

/-- Prepend a leading `\b` to a matcher, checking the previous character
against the first input character. -/
def mLeadB (m : Matcher) : Option Char → Matcher := fun prev s =>
  if isWordOpt prev != isWordOpt s.head? then m s else none

/-- Shorthand: case-insensitive literal. -/
def wlit (w : String) : Matcher := mlitCI w.toList

/-- Shorthand: `\s*`. -/
def wss : Matcher := mmany jsSpace

/-- Greedy optional matcher (`X?`).  The only optionals in these patterns are
a single word character (`s?`, `(?:ly)?`) directly before a `\b` or a
word-starting group, where the greedy parse and the backtracking parse accept
the same strings. -/
def mopt (a : Matcher) : Matcher := fun s =>
  match a s with
  | some r => some r
  | none => some (none, s)

/-- Words joined by `\s*`, e.g. `vo2\s*max`. -/
def wordSeq : List String → Matcher
  | [] => fun s => some (none, s)
  | [w] => wlit w
  | w :: ws => mseq (wlit w) (mseq wss (wordSeq ws))

/-- Character class `[\s-]`. -/
def spaceDash (c : Char) : Bool := jsSpace c || c = '-'

/-- A `\b`-delimited word sequence `\bw1\s*w2…\b`. -/
def wordsB (ws : List String) : Option Char → Matcher :=
  mLeadB (withEndB (wordSeq ws))

/-- A `\b`-delimited word sequence with optional plural `s?`. -/
def wordsOptS (ws : List String) : Option Char → Matcher :=
  mLeadB (withEndB (mseq (wordSeq ws) (mopt (wlit "s"))))

/-- Alternation under shared `\b` delimiters: `\b(A|B|…)\b`, alternatives in
source order, each with its own trailing boundary (JS backtracks across
alternatives). -/
def altWordsB (alts : List Matcher) : Option Char → Matcher := fun prev s =>
  if isWordOpt prev != isWordOpt s.head? then
    alts.foldr (fun m acc => (withEndB m s).orElse fun _ => acc) none
  else none

/-- Pattern `high[\s-]intensity\s*interval\s*training`. -/
def hiitLong : Matcher :=
  mseq (wlit "high") (mseq (mclass spaceDash)
    (mseq (wlit "intensity") (mseq wss (mseq (wlit "interval") (mseq wss (wlit "training"))))))

/-- The `industryPatterns` table of `NLPEngine.initializePatterns`, in map
insertion order (fitness, cannabis, technology, education); each entry is one
source regex. -/
def industryPatternTable : List (String × List (Option Char → Matcher)) :=
  [("fitness",
    [altWordsB [wordSeq ["vo2", "max"], wordSeq ["aerobic", "capacity"],
                wordSeq ["cardiovascular", "fitness"]],
     altWordsB [wlit "hiit", hiitLong],
     altWordsB [wordSeq ["strength", "training"], wordSeq ["resistance", "training"],
                wordSeq ["weight", "training"]],
     altWordsB [wlit "endurance", wlit "stamina", wlit "conditioning"],
     altWordsB [wlit "workout", wlit "exercise", wordSeq ["training", "program"]],
     altWordsB [mseq (wordSeq ["fitness", "goal"]) (mopt (wlit "s")),
                wlit "performance", wlit "athletic"],
     altWordsB [wordSeq ["heart", "rate"], mseq (wlit "zone") (mopt (wlit "s")),
                wlit "threshold"],
     altWordsB [wlit "recovery", mseq (wordSeq ["rest", "day"]) (mopt (wlit "s")),
                wlit "adaptation"]]),
   ("cannabis",
    [altWordsB [wlit "bong", wordSeq ["water", "pipe"], wlit "bubbler",
                wordSeq ["dab", "rig"]],
     altWordsB [wlit "cannabis", wlit "marijuana", wlit "hemp", wlit "thc", wlit "cbd"],
     altWordsB [wlit "smoking", wlit "vaping", wlit "consumption"],
     altWordsB [wlit "strain", wlit "indica", wlit "sativa", wlit "hybrid"]]),
   ("technology",
    [altWordsB [wlit "software", wlit "application", wlit "platform", wlit "system"],
     altWordsB [wlit "api", wlit "integration", wlit "automation"],
     altWordsB [wlit "data", wlit "analytics", wlit "metrics"],
     altWordsB [wlit "cloud", wlit "saas", wlit "infrastructure"]]),
   ("education",
    [altWordsB [wlit "learning", wlit "education", wlit "training", wlit "course"],
     altWordsB [wlit "student", wlit "teacher", wlit "instructor", wlit "educator"],
     altWordsB [wlit "curriculum", wlit "lesson", wlit "module"],
     altWordsB [wlit "assessment", wlit "evaluation", wlit "feedback"]])]

/-- `NLPEngine.detectIndustry`: count pattern matches over the lowercased
`title + " " + content` per industry and return the first industry whose count
strictly exceeds all earlier ones, defaulting to `general`. -/
def detectIndustry (content title : String) : String :=
  let text := (jsLower (title ++ " " ++ content)).toList
  let counts := industryPatternTable.map fun it =>
    (it.1, it.2.foldl (fun n p => n + scanCount p text) 0)
  (counts.foldl (fun best c => if c.2 > best.2 then c else best) ("general", 0)).1

/-- One entry of a domain lexicon block of `extractEntities`: an existence
pattern, the dedup key used against the `foundEntities` set, and the pushed
entity fields. -/
structure LexEntry where
  pat : Option Char → Matcher
  key : String
  name : String
  etype : String
  confidence : ℚ
  context : String

/-- Existence test of a boundary-aware pattern, i.e. truthiness of
`content.match(pattern)`. -/
def testB (m : Option Char → Matcher) (s : List Char) : Bool :=
  scanTest (fun prev t => (m prev t).isSome) none s

/-- Process one lexicon block: push each entry whose pattern matches and whose
key is not yet in the found set, in source order. -/
def pushLex : List LexEntry → List Char → List String × List Entity →
    List String × List Entity
  | [], _, st => st
  | e :: es, cl, (found, acc) =>
    if testB e.pat cl && !(found.contains e.key) then
      pushLex es cl (e.key :: found,
        acc ++ [{ name := e.name, etype := e.etype, confidence := e.confidence,
                  context := e.context }])
    else
      pushLex es cl (found, acc)

/-- The `vo2Patterns` block of the fitness branch of `extractEntities`. -/
def vo2Entries : List LexEntry :=
  [{ pat := wordsB ["vo2", "max"], key := "vo2 max", name := "VO2 Max",
     etype := "fitness", confidence := mkRat 95 100,
     context := "cardiovascular fitness measurement" },
   { pat := mLeadB (withEndB (mseq (wordSeq ["maximal", "oxygen"])
       (mseq wss (malt (wlit "consumption") (wlit "uptake"))))),
     key := "vo2 max", name := "VO2 Max", etype := "fitness",
     confidence := mkRat 95 100, context := "cardiovascular fitness measurement" },
   { pat := wordsB ["aerobic", "capacity"], key := "aerobic capacity",
     name := "Aerobic Capacity", etype := "fitness", confidence := mkRat 95 100,
     context := "cardiovascular fitness measurement" }]

/-- The `trainingPatterns` block of the fitness branch: the dedup key is the
short `name`, the pushed entity name is the `full` variant. -/
def trainingEntries : List LexEntry :=
  [{ pat := mLeadB (withEndB hiitLong), key := "hiit",
     name := "High-Intensity Interval Training", etype := "fitness",
     confidence := mkRat 9 10, context := "training methodology" },
   { pat := wordsB ["hiit"], key := "hiit",
     name := "High-Intensity Interval Training", etype := "fitness",
     confidence := mkRat 9 10, context := "training methodology" },
   { pat := mLeadB (withEndB (mseq (wlit "steady") (mseq (mclass spaceDash)
       (mseq (wlit "state") (mseq wss (wlit "cardio")))))),
     key := "steady-state cardio", name := "Steady-State Cardiovascular Training",
     etype := "fitness", confidence := mkRat 9 10, context := "training methodology" },
   { pat := wordsB ["interval", "training"], key := "interval training",
     name := "Interval Training", etype := "fitness", confidence := mkRat 9 10,
     context := "training methodology" },
   { pat := wordsB ["endurance", "training"], key := "endurance training",
     name := "Endurance Training", etype := "fitness", confidence := mkRat 9 10,
     context := "training methodology" }]

/-- The heart-rate-zone pattern
`/\b(?:heart\s*rate\s*)?zones?\s*(\d+|one|two|three|four|five)\b/gi`. -/
def zonePat : Option Char → Matcher :=
  mLeadB (moptSeq (mseq (wlit "heart") (mseq wss (mseq (wlit "rate") wss)))
    (mseq (wlit "zone") (mseq (mopt (wlit "s")) (mseq wss
      (fun s => [mmany1 Char.isDigit, wlit "one", wlit "two", wlit "three",
                 wlit "four", wlit "five"].foldr
        (fun m acc => (withEndB m s).orElse fun _ => acc) none)))))

/-- The `cannabisPatterns` block. -/
def cannabisEntries : List LexEntry :=
  [{ pat := wordsOptS ["bong"], key := "bong", name := "Bong", etype := "product",
     confidence := mkRat 9 10, context := "cannabis consumption device" },
   { pat := wordsOptS ["water", "pipe"], key := "water pipe", name := "Water Pipe",
     etype := "product", confidence := mkRat 9 10,
     context := "cannabis consumption device" },
   { pat := wordsOptS ["bubbler"], key := "bubbler", name := "Bubbler",
     etype := "product", confidence := mkRat 9 10,
     context := "cannabis consumption device" },
   { pat := wordsOptS ["percolator"], key := "percolator", name := "Percolator",
     etype := "product", confidence := mkRat 9 10,
     context := "cannabis consumption device" },
   { pat := wordsB ["borosilicate", "glass"], key := "borosilicate glass",
     name := "Borosilicate Glass", etype := "product", confidence := mkRat 9 10,
     context := "cannabis consumption device" },
   { pat := mLeadB (withEndB (mseq (wlit "silicone") (mseq wss
       (malt (mseq (wlit "pipe") (mopt (wlit "s")))
             (mseq (wlit "bong") (mopt (wlit "s"))))))),
     key := "silicone", name := "Silicone", etype := "product",
     confidence := mkRat 9 10, context := "cannabis consumption device" }]

/-- The `techPatterns` block. -/
def techEntries : List LexEntry :=
  [{ pat := wordsB ["odoo"], key := "odoo", name := "Odoo", etype := "product",
     confidence := mkRat 85 100, context := "enterprise software" },
   { pat := wordsB ["erp"], key := "erp", name := "ERP", etype := "concept",
     confidence := mkRat 85 100, context := "enterprise software" },
   { pat := wordsB ["customization"], key := "customization",
     name := "Software Customization", etype := "service",
     confidence := mkRat 85 100, context := "enterprise software" }]

/-- Stable insertion keeping earlier elements in front of later equals,
descending by confidence (JS stable `sort` with comparator
`b.confidence - a.confidence`). -/
def insertByConfDesc (x : Entity) : List Entity → List Entity
  | [] => [x]
  | y :: ys =>
    if y.confidence ≥ x.confidence then y :: insertByConfDesc x ys else x :: y :: ys

/-- Stable sort descending by confidence. -/
def sortByConfDesc (l : List Entity) : List Entity :=
  l.foldl (fun acc x => insertByConfDesc x acc) []

/-- `NLPEngine.extractEntities`: only the three guarded lexicon blocks
(fitness, cannabis, technology) ever push entities; the result is sorted by
descending confidence. -/
def extractEntities (content : String) (industry : String) : List Entity :=
  let cl := content.toList
  let st0 : List String × List Entity := ([], [])
  let st1 :=
    if industry = "fitness" then
      let stA := pushLex vo2Entries cl st0
      let stB := pushLex trainingEntries cl stA
      if testB zonePat cl && !(stB.1.contains "heart rate zones") then
        ("heart rate zones" :: stB.1,
         stB.2 ++ [{ name := "Heart Rate Training Zones", etype := "fitness",
                     confidence := mkRat 85 100,
                     context := "training intensity measurement" }])
      else stB
    else st0
  let st2 := if industry = "cannabis" then pushLex cannabisEntries cl st1 else st1
  let st3 := if industry = "technology" then pushLex techEntries cl st2 else st2
  sortByConfDesc st3.2

/-- Count of `\b`-delimited case-insensitive occurrences of a name, i.e.
`content.match(new RegExp("\\b" + name + "\\b", "gi")).length`. -/
def countNameOccurrences (name : String) (content : List Char) : Nat :=
  scanCount (mLeadB (withEndB (mlitCI name.toList))) content

/-- Stable insertion descending by mention-count times confidence (JS
comparator `freqB * b.confidence - freqA * a.confidence`). -/
def insertByWeightDesc (w : Entity → ℚ) (x : Entity) : List Entity → List Entity
  | [] => [x]
  | y :: ys => if w y ≥ w x then y :: insertByWeightDesc w x ys else x :: y :: ys

/-- `NLPEngine.identifyMainConcepts`: entities with more than 2 boundary
matches in the content and confidence above 0.8, sorted by descending
frequency-weighted confidence, first 5 names. -/
def identifyMainConcepts (entities : List Entity) (content : String) : List String :=
  let cl := content.toList
  let mentionsOf := fun (e : Entity) => countNameOccurrences e.name cl
  let kept := entities.filter fun e =>
    decide (mentionsOf e > 2) && decide (e.confidence > mkRat 8 10)
  let sorted := kept.foldl
    (fun acc x => insertByWeightDesc (fun e => (mentionsOf e : ℚ) * e.confidence) x acc) []
  (sorted.map (·.name)).take 5

/-- Entity list produced by `analyzeContent` for an input: `extractEntities`
on the detected industry. -/
def analyzeEntities (content title : String) : List Entity :=
  extractEntities content (detectIndustry content title)

/-- Main concepts produced by `analyzeContent` for an input. -/
def analyzeMainConcepts (content title : String) : List String :=
  identifyMainConcepts (analyzeEntities content title) content

/-- C10: when the detected industry is none of `fitness`, `cannabis`,
`technology` (for example `education` or the default `general`),
`extractEntities` returns the empty list, and consequently `analyzeContent`
returns empty entities and empty main concepts. -/
theorem c10_other_industries_yield_no_entities :
    (∀ content industry : String, industry ≠ "fitness" → industry ≠ "cannabis" →
      industry ≠ "technology" → extractEntities content industry = []) ∧
    (∀ content : String, identifyMainConcepts [] content = []) ∧
    (∀ content title : String,
      detectIndustry content title ∉ (["fitness", "cannabis", "technology"] : List String) →
      analyzeEntities content title = [] ∧ analyzeMainConcepts content title = []) := by
  have h1 : ∀ content industry : String, industry ≠ "fitness" → industry ≠ "cannabis" →
      industry ≠ "technology" → extractEntities content industry = [] := by
    intro content industry hf hc ht
    unfold extractEntities
    simp only [if_neg hf, if_neg hc, if_neg ht]
    rfl
  have h2 : ∀ content : String, identifyMainConcepts [] content = [] := by
    intro content
    rfl
  refine ⟨h1, h2, ?_⟩
  intro content title hnot
  simp only [List.mem_cons, List.not_mem_nil, or_false, not_or] at hnot
  have he : analyzeEntities content title = [] :=
    h1 content _ hnot.1 hnot.2.1 hnot.2.2
  exact ⟨he, by rw [analyzeMainConcepts, he]; exact h2 content⟩

/-- C10 witness: a concrete education-classified input. -/
theorem c10_witness :
    detectIndustry "learning student curriculum assessment" "" ∉
      (["fitness", "cannabis", "technology"] : List String) ∧
    analyzeEntities "learning student curriculum assessment" "" = [] ∧
    analyzeMainConcepts "learning student curriculum assessment" "" = [] :=
  ⟨by decide,
   (c10_other_industries_yield_no_entities.2.2 "learning student curriculum assessment" ""
     (by decide)).1,
   (c10_other_industries_yield_no_entities.2.2 "learning student curriculum assessment" ""
     (by decide)).2⟩

/-! ## Knowledge-graph builder
(`app/lib/intelligence/knowledge-graph-builder.ts`) -/

/-- A graph node (`GraphNode` with its `properties`); `embeddings` and the
`category`/`context` properties play no role in any claim and are omitted. -/
structure GNode where
  id : String
  ntype : String
  label : String
  confidence : ℚ
  mentions : Nat
  importance : ℚ
deriving Repr, DecidableEq

/-- A graph edge (`GraphEdge`; the `properties.context` payload is omitted). -/
structure GEdge where
  source : String
  target : String
  relationship : String
  weight : ℚ
deriving Repr, DecidableEq

/-- The graph: JS `Map`s as insertion-ordered association lists.  The
`clusters` map is computed by `clusterNodes` from nodes and edges only and
never feeds back into them; it is not modelled. -/
structure KGraph where
  nodes : List (String × GNode)
  edges : List (String × GEdge)
deriving Repr, DecidableEq

/-- An extracted relationship (`EntityRelationship`; the `context` string is
omitted). -/
structure EntityRelationship where
  entity1 : String
  entity2 : String
  relationship : String
  confidence : ℚ
deriving Repr, DecidableEq

/-- Collapse every whitespace run to a single hyphen (`replace(/\s+/g, "-")`);
the flag records whether the previous character was whitespace. -/
def slugGo (prevSpace : Bool) : List Char → List Char
  | [] => []
  | c :: cs =>
    if jsSpace c then
      if prevSpace then slugGo true cs else '-' :: slugGo true cs
    else c :: slugGo false cs

/-- `KnowledgeGraphBuilder.generateNodeId`: lowercase, whitespace runs to
hyphens. -/
def generateNodeId (name : String) : String :=
  String.mk (slugGo false (jsLower name).toList)

/-- Key membership in a JS `Map` modelled as an association list. -/
def containsKey {V : Type} (m : List (String × V)) (k : String) : Bool :=
  m.any fun p => p.1 == k

/-- `KnowledgeGraphBuilder.addNode`: on an existing id bump the mention count
and keep the larger confidence, else append a fresh node.  The `||` defaults
of the source are JS falsiness: an empty type string becomes `Thing` and a
zero confidence becomes `1.0`. -/
def addNode (g : KGraph) (entity : Entity) : KGraph :=
  let nodeId := generateNodeId entity.name
  if containsKey g.nodes nodeId then
    { g with nodes := g.nodes.map fun p =>
        if p.1 == nodeId then
          (p.1, { p.2 with
                  mentions := p.2.mentions + 1,
                  confidence := max p.2.confidence
                    (if entity.confidence = 0 then 1 else entity.confidence) })
        else p }
  else
    { g with nodes := g.nodes ++
        [(nodeId,
          { id := nodeId
            ntype := if entity.etype = "" then "Thing" else entity.etype
            label := entity.name
            confidence := if entity.confidence = 0 then 1 else entity.confidence
            mentions := 1
            importance := 0 })] }

/-- `KnowledgeGraphBuilder.addEdge`: silently drop the relationship unless
both endpoint ids already key the node map; strengthen an existing edge by
0.1 capped at 1.0, else append. -/
def addEdge (g : KGraph) (rel : EntityRelationship) : KGraph :=
  let sourceId := generateNodeId rel.entity1
  let targetId := generateNodeId rel.entity2
  let edgeId := sourceId ++ "-" ++ rel.relationship ++ "-" ++ targetId
  if !(containsKey g.nodes sourceId) || !(containsKey g.nodes targetId) then
    g
  else if containsKey g.edges edgeId then
    { g with edges := g.edges.map fun p =>
        if p.1 == edgeId then
          (p.1, { p.2 with weight := min (p.2.weight + mkRat 1 10) 1 })
        else p }
  else
    { g with edges := g.edges ++
        [(edgeId,
          { source := sourceId, target := targetId,
            relationship := rel.relationship, weight := rel.confidence })] }

/-- The `hierarchy` tables of `initializeOntologies`, keyed by domain. -/
def ontologyHierarchy : List (String × List (String × List String)) :=
  [("technology",
    [("software", ["application", "API", "database"]),
     ("hardware", ["server", "device", "component"])]),
   ("business",
    [("company", ["department", "team", "employee"]),
     ("market", ["segment", "demographic", "region"])]),
   ("medical",
    [("disease", ["symptom", "complication"]),
     ("treatment", ["medication", "therapy", "procedure"])]),
   ("education",
    [("curriculum", ["course", "module", "lesson"]),
     ("skill", ["competency", "ability", "expertise"])])]

/-- Add one `hierarchical` edge (weight 0.8) between two node ids unless the
edge id already exists; inner body of `applyDomainKnowledge`. -/
def addHierEdge (g : KGraph) (pid cid : String) : KGraph :=
  let edgeId := pid ++ "-hierarchical-" ++ cid
  if containsKey g.edges edgeId then g
  else
    { g with edges := g.edges ++
        [(edgeId,
          { source := pid, target := cid, relationship := "hierarchical",
            weight := mkRat 8 10 })] }

/-- `KnowledgeGraphBuilder.applyDomainKnowledge`: for each parent/child type
pair of the domain ontology, connect every parent-typed node to every
child-typed node. -/
def applyDomainKnowledge (g : KGraph) (domain : String) : KGraph :=
  match ontologyHierarchy.lookup domain with
  | none => g
  | some hier =>
    hier.foldl
      (fun g1 pc =>
        let parentNodes := g1.nodes.filter fun p => p.2.ntype == pc.1
        parentNodes.foldl
          (fun g2 pn =>
            let childNodes := g2.nodes.filter fun p => pc.2.contains p.2.ntype
            childNodes.foldl (fun g3 cn => addHierEdge g3 pn.2.id cn.2.id) g2)
          g1)
      g

/-- The damping factor of `calculateNodeImportance`. -/
def damping : ℚ := mkRat 85 100

/-- `KnowledgeGraphBuilder.getOutDegree`: outgoing edge count floored at 1. -/
def getOutDegree (edges : List (String × GEdge)) (nodeId : String) : Nat :=
  max (edges.countP fun p => p.2.source == nodeId) 1

/-- Contribution of incoming edges to one node's new score:
the sum over edges into it of `d * (importance(source)/outDegree(source)) * weight`,
read from the previous scores (the source collects `newScores` before writing
them back, so the update is synchronous). -/
def incomingSum (g : KGraph) (nid : String) : ℚ :=
  g.edges.foldl
    (fun acc e =>
      if e.2.target == nid then
        match g.nodes.find? fun q => q.1 == e.2.source with
        | some q =>
          acc + damping * (q.2.importance / (getOutDegree g.edges e.2.source : ℚ))
            * e.2.weight
        | none => acc
      else acc)
    0

/-- One iteration of the importance loop: every node gets
`(1-d)/N + incomingSum`. -/
def importanceStep (nodeCount : Nat) (g : KGraph) : KGraph :=
  { g with nodes := g.nodes.map fun p =>
      (p.1, { p.2 with importance := (1 - damping) / (nodeCount : ℚ) + incomingSum g p.1 }) }

/-- Initialise every importance to `1/N`. -/
def initImportance (nodeCount : Nat) (g : KGraph) : KGraph :=
  { g with nodes := g.nodes.map fun p =>
      (p.1, { p.2 with importance := 1 / (nodeCount : ℚ) }) }

/-- The iteration loop of `calculateNodeImportance`, counting executed loop
bodies; the source `for` loop has no break or convergence test. -/
def importanceLoop (nodeCount : Nat) : Nat → KGraph → KGraph × Nat
  | 0, g => (g, 0)
  | n + 1, g =>
    let r := importanceLoop nodeCount n (importanceStep nodeCount g)
    (r.1, r.2 + 1)

/-- `KnowledgeGraphBuilder.calculateNodeImportance` with its executed
iteration count: initialise to `1/N`, then 50 fixed iterations. -/
def calculateNodeImportanceRun (g : KGraph) : KGraph × Nat :=
  let nodeCount := g.nodes.length
  importanceLoop nodeCount 50 (initImportance nodeCount g)

/-- `KnowledgeGraphBuilder.calculateNodeImportance`. -/
def calculateNodeImportance (g : KGraph) : KGraph :=
  (calculateNodeImportanceRun g).1

/-- `KnowledgeGraphBuilder.buildGraph` over an already-extracted relationship
list (the regex/co-occurrence/type-hierarchy extraction supplies
`relationships`; everything proved below holds for every such list).
`clusterNodes` touches only the unmodelled cluster map. -/
def buildGraphFrom (entities : List Entity) (relationships : List EntityRelationship)
    (domain : Option String) : KGraph :=
  let g0 : KGraph := { nodes := [], edges := [] }
  let g1 := entities.foldl addNode g0
  let g2 := relationships.foldl addEdge g1
  let g3 :=
    match domain with
    | some d => if containsKey ontologyHierarchy d then applyDomainKnowledge g2 d else g2
    | none => g2
  calculateNodeImportance g3

/-- Sum of the importance scores over the node map. -/
def sumImportance (g : KGraph) : ℚ :=
  g.nodes.foldl (fun acc p => acc + p.2.importance) 0

/-- Adding a node never changes the edge map. -/
theorem addNode_edges (g : KGraph) (e : Entity) : (addNode g e).edges = g.edges := by
  simp only [addNode]
  split <;> rfl

/-- Folding `addNode` never changes the edge map. -/
theorem foldl_addNode_edges (es : List Entity) (g : KGraph) :
    (es.foldl addNode g).edges = g.edges := by
  induction es generalizing g with
  | nil => rfl
  | cons e es ih => rw [List.foldl_cons, ih, addNode_edges]

/-- Adding a node can only grow the node map. -/
theorem addNode_length_le (g : KGraph) (e : Entity) :
    g.nodes.length ≤ (addNode g e).nodes.length := by
  simp only [addNode]
  split
  · simp
  · simp

/-- Folding `addNode` can only grow the node map. -/
theorem foldl_addNode_length_le (es : List Entity) (g : KGraph) :
    g.nodes.length ≤ (es.foldl addNode g).nodes.length := by
  induction es generalizing g with
  | nil => exact le_refl _
  | cons e es ih => exact le_trans (addNode_length_le g e) (ih (addNode g e))

/-- A non-empty entity list yields a non-empty node map. -/
theorem foldl_addNode_ne_nil (e : Entity) (es : List Entity) :
    1 ≤ ((e :: es).foldl addNode { nodes := [], edges := [] }).nodes.length := by
  rw [List.foldl_cons]
  refine le_trans ?_ (foldl_addNode_length_le es _)
  simp only [addNode]
  rw [if_neg (by simp [containsKey])]
  simp

/-- With no edges the incoming contribution is zero. -/
theorem incomingSum_edgeless (g : KGraph) (h : g.edges = []) (nid : String) :
    incomingSum g nid = 0 := by
  unfold incomingSum
  rw [h]
  rfl

/-- With no edges one importance iteration sets every score to `(1-d)/N`. -/
theorem importanceStep_edgeless (N : Nat) (g : KGraph) (h : g.edges = []) :
    importanceStep N g =
      { g with nodes := g.nodes.map fun p =>
          (p.1, { p.2 with importance := (1 - damping) / (N : ℚ) }) } := by
  unfold importanceStep
  simp only [incomingSum_edgeless g h, add_zero]

/-- The importance step keeps the edge map. -/
theorem importanceStep_edges (N : Nat) (g : KGraph) :
    (importanceStep N g).edges = g.edges := rfl

/-- After at least one edgeless iteration every score is `(1-d)/N`,
regardless of the starting scores. -/
theorem importanceLoop_edgeless (N : Nat) (n : Nat) (hn : 1 ≤ n) (g : KGraph)
    (h : g.edges = []) :
    (importanceLoop N n g).1.nodes =
      g.nodes.map fun p => (p.1, { p.2 with importance := (1 - damping) / (N : ℚ) }) := by
  induction n generalizing g with
  | zero => exact absurd hn (by decide)
  | succ n ih =>
    show (importanceLoop N n (importanceStep N g)).1.nodes = _
    rcases Nat.eq_zero_or_pos n with hn0 | hn0
    · subst hn0
      show (importanceStep N g).nodes = _
      rw [importanceStep_edgeless N g h]
    · rw [ih hn0 (importanceStep N g) (by rw [importanceStep_edges, h])]
      rw [importanceStep_edgeless N g h]
      simp only [List.map_map]
      rfl

/-- Left fold of accumulation equals the sum of the mapped list. -/
theorem foldl_add_eq_sum {α : Type} (f : α → ℚ) (l : List α) (a : ℚ) :
    l.foldl (fun acc x => acc + f x) a = a + (l.map f).sum := by
  induction l generalizing a with
  | nil => simp
  | cons x xs ih => simp [List.foldl_cons, ih, add_assoc]

/-- Sum of a constant map. -/
theorem sum_map_const {α : Type} (l : List α) (c : ℚ) :
    (l.map fun _ => c).sum = l.length * c := by
  induction l with
  | nil => simp
  | cons x xs ih =>
    simp only [List.map_cons, List.sum_cons, ih, List.length_cons]
    push_cast
    ring

/-- The builder applied to an extraction that yields no relationships and no
domain overlay: every node's final importance is `(1-d)/N` and the scores sum
to `1-d`. -/
theorem buildGraphFrom_edgeless (entities : List Entity) (h : entities ≠ []) :
    (∀ p ∈ (buildGraphFrom entities [] none).nodes,
      p.2.importance = (1 - damping) /
        (((buildGraphFrom entities [] none).nodes.length : ℚ))) ∧
    sumImportance (buildGraphFrom entities [] none) = 1 - damping := by
  rcases entities with - | ⟨e, es⟩
  · exact absurd rfl h
  set g1 := (e :: es).foldl addNode { nodes := [], edges := [] } with hg1
  have hedges : g1.edges = [] := foldl_addNode_edges _ _
  have hN : 1 ≤ g1.nodes.length := foldl_addNode_ne_nil e es
  have hbuild : buildGraphFrom (e :: es) [] none =
      (importanceLoop g1.nodes.length 50 (initImportance g1.nodes.length g1)).1 := rfl
  have hinit_edges : (initImportance g1.nodes.length g1).edges = [] := hedges
  have hnodes : (buildGraphFrom (e :: es) [] none).nodes =
      (initImportance g1.nodes.length g1).nodes.map
        (fun p => (p.1, { p.2 with importance :=
          (1 - damping) / (g1.nodes.length : ℚ) })) := by
    rw [hbuild, importanceLoop_edgeless _ 50 (by norm_num) _ hinit_edges]
  have hlen : (buildGraphFrom (e :: es) [] none).nodes.length = g1.nodes.length := by
    rw [hnodes]
    simp [initImportance]
  constructor
  · intro p hp
    rw [hnodes] at hp
    rcases List.mem_map.mp hp with ⟨q, -, rfl⟩
    rw [hlen]
  · have hNQ : ((g1.nodes.length : ℚ)) ≠ 0 :=
      Nat.cast_ne_zero.mpr (Nat.one_le_iff_ne_zero.mp hN)
    rw [sumImportance, foldl_add_eq_sum, hnodes, zero_add]
    rw [List.map_map]
    have hcomp : ((fun p : String × GNode => p.2.importance) ∘
        fun p : String × GNode => (p.1, { p.2 with importance :=
          (1 - damping) / (g1.nodes.length : ℚ) })) =
        fun _ => (1 - damping) / (g1.nodes.length : ℚ) := rfl
    rw [hcomp, sum_map_const]
    have hlen2 : (initImportance g1.nodes.length g1).nodes.length = g1.nodes.length := by
      simp [initImportance]
    rw [hlen2]
    field_simp

/-- Numeric value of `1 - damping`. -/
theorem one_sub_damping : (1 : ℚ) - damping = 3/20 := by
  rw [damping]
  rw [Rat.mkRat_eq_div]
  norm_num

/-- A one-entity input for the graph builder. -/
def entA : Entity := { name := "a", etype := "concept", confidence := 1, context := "" }

/-- C3 (counterexample): a graph built from one entity and no relationships
(as extraction yields on empty content) has importance sum `3/20 = 0.15`,
nowhere near 1.0. -/
theorem c3_counterexample :
    sumImportance (buildGraphFrom [entA] [] none) = 3/20 ∧
    ¬ |sumImportance (buildGraphFrom [entA] [] none) - 1| ≤ 1/2 := by
  have hs := (buildGraphFrom_edgeless [entA] (by simp)).2
  rw [one_sub_damping] at hs
  refine ⟨hs, ?_⟩
  rw [hs]
  rw [show (3/20 : ℚ) - 1 = -(17/20) from by norm_num, abs_neg,
    abs_of_nonneg (by norm_num)]
  norm_num

/-- C3 (amended): the importance scores do not sum to approximately 1.0 for
every non-empty graph.  What holds: the last iteration writes
`(1-d)/N + (incoming mass)` into each node, so for every graph built with a
non-empty node set and no edges each score is `0.15/N` and the sum is exactly
`1 - 0.85 = 0.15`. -/
theorem c3_importance_sum_edgeless (entities : List Entity) (h : entities ≠ []) :
    (∀ p ∈ (buildGraphFrom entities [] none).nodes,
      p.2.importance = (3/20 : ℚ) /
        (((buildGraphFrom entities [] none).nodes.length : ℚ))) ∧
    sumImportance (buildGraphFrom entities [] none) = 3/20 := by
  have hb := buildGraphFrom_edgeless entities h
  rw [one_sub_damping] at hb
  exact hb

/-- C3 witness: two concrete entities, no relationships. -/
theorem c3_witness :
    sumImportance (buildGraphFrom
      [{ name := "VO2 Max", etype := "fitness", confidence := mkRat 95 100, context := "" },
       { name := "HIIT", etype := "fitness", confidence := mkRat 9 10, context := "" }]
      [] none) = 3/20 :=
  (c3_importance_sum_edgeless _ (by simp)).2

/-- Every edge's endpoints key the node map. -/
def edgesClosed (g : KGraph) : Prop :=
  ∀ p ∈ g.edges, containsKey g.nodes p.2.source = true ∧
    containsKey g.nodes p.2.target = true

/-- Every stored node's `id` field equals its map key, as `addNode`
establishes. -/
def idsConsistent (g : KGraph) : Prop := ∀ p ∈ g.nodes, p.2.id = p.1

/-- Key membership is invariant under value-only rewrites of the map. -/
theorem containsKey_map_fst {V : Type} (m : List (String × V))
    (f : String × V → String × V) (hf : ∀ p, (f p).1 = p.1) (k : String) :
    containsKey (m.map f) k = containsKey m k := by
  induction m with
  | nil => rfl
  | cons p ps ih =>
    simp only [List.map_cons, containsKey, List.any_cons] at *
    rw [hf p, ih]

/-- Key membership survives appends. -/
theorem containsKey_append_left {V : Type} (m m2 : List (String × V)) (k : String)
    (h : containsKey m k = true) : containsKey (m ++ m2) k = true := by
  simp only [containsKey, List.any_append] at *
  rw [h]
  rfl

/-- `addNode` preserves existing keys. -/
theorem addNode_containsKey (g : KGraph) (e : Entity) (k : String)
    (h : containsKey g.nodes k = true) :
    containsKey (addNode g e).nodes k = true := by
  simp only [addNode]
  split
  · show containsKey (g.nodes.map _) k = true
    rw [containsKey_map_fst _ _ (fun p => by split <;> rfl)]
    exact h
  · exact containsKey_append_left _ _ _ h

/-- `addNode` preserves edge closure. -/
theorem addNode_closed (g : KGraph) (e : Entity) (hg : edgesClosed g) :
    edgesClosed (addNode g e) := by
  intro p hp
  rw [addNode_edges] at hp
  rcases hg p hp with ⟨h1, h2⟩
  exact ⟨addNode_containsKey g e _ h1, addNode_containsKey g e _ h2⟩

/-- `addNode` keeps node ids consistent with their keys. -/
theorem addNode_ids (g : KGraph) (e : Entity) (hg : idsConsistent g) :
    idsConsistent (addNode g e) := by
  intro p hp
  simp only [addNode] at hp
  split at hp
  · rcases List.mem_map.mp hp with ⟨q, hq, rfl⟩
    split
    · exact hg q hq
    · exact hg q hq
  · rcases List.mem_append.mp hp with hq | hq
    · exact hg p hq
    · simp only [List.mem_singleton] at hq
      rw [hq]

/-- `addEdge` never changes the node map. -/
theorem addEdge_nodes (g : KGraph) (rel : EntityRelationship) :
    (addEdge g rel).nodes = g.nodes := by
  simp only [addEdge]
  split
  · rfl
  · split <;> rfl

/-- C6 helper: `addEdge` preserves edge closure, because an edge is only
inserted once both endpoints key the node map. -/
theorem addEdge_closed (g : KGraph) (rel : EntityRelationship) (hg : edgesClosed g) :
    edgesClosed (addEdge g rel) := by
  intro p hp
  rw [addEdge_nodes]
  simp only [addEdge] at hp
  split at hp
  · exact hg p hp
  · rename_i hboth
    simp only [Bool.not_eq_true, Bool.or_eq_false_iff, Bool.not_eq_false] at hboth
    split at hp
    · rcases List.mem_map.mp hp with ⟨q, hq, rfl⟩
      rcases hg q hq with ⟨h1, h2⟩
      constructor
      · split
        · exact h1
        · exact h1
      · split
        · exact h2
        · exact h2
    · rcases List.mem_append.mp hp with hq | hq
      · exact hg p hq
      · simp only [List.mem_singleton] at hq
        rw [hq]
        refine ⟨?_, ?_⟩
        · simpa using hboth.1
        · simpa using hboth.2

/-- `addHierEdge` never changes the node map. -/
theorem addHierEdge_nodes (g : KGraph) (pid cid : String) :
    (addHierEdge g pid cid).nodes = g.nodes := by
  simp only [addHierEdge]
  split <;> rfl

/-- `addHierEdge` preserves closure when both given ids key the node map. -/
theorem addHierEdge_closed (g : KGraph) (pid cid : String) (hg : edgesClosed g)
    (hp : containsKey g.nodes pid = true) (hc : containsKey g.nodes cid = true) :
    edgesClosed (addHierEdge g pid cid) := by
  intro p hmem
  rw [addHierEdge_nodes]
  simp only [addHierEdge] at hmem
  split at hmem
  · exact hg p hmem
  · rcases List.mem_append.mp hmem with hq | hq
    · exact hg p hq
    · simp only [List.mem_singleton] at hq
      rw [hq]
      exact ⟨hp, hc⟩

/-- The inner child loop of `applyDomainKnowledge` preserves nodes and
closure. -/
theorem foldl_addHier_inner (cns : List (String × GNode)) (g : KGraph) (pid : String)
    (hg : edgesClosed g) (hp : containsKey g.nodes pid = true)
    (hcs : ∀ cn ∈ cns, containsKey g.nodes cn.2.id = true) :
    (cns.foldl (fun g3 cn => addHierEdge g3 pid cn.2.id) g).nodes = g.nodes ∧
    edgesClosed (cns.foldl (fun g3 cn => addHierEdge g3 pid cn.2.id) g) := by
  induction cns generalizing g with
  | nil => exact ⟨rfl, hg⟩
  | cons cn cns ih =>
    rw [List.foldl_cons]
    have hstep : (addHierEdge g pid cn.2.id).nodes = g.nodes := addHierEdge_nodes _ _ _
    rcases ih (addHierEdge g pid cn.2.id)
      (addHierEdge_closed g pid cn.2.id hg hp (hcs cn (List.mem_cons_self _ _)))
      (by rw [hstep]; exact hp)
      (fun c hc => by rw [hstep]; exact hcs c (List.mem_cons_of_mem _ hc)) with ⟨h1, h2⟩
    exact ⟨by rw [h1, hstep], h2⟩

/-- The parent loop of `applyDomainKnowledge` preserves nodes and closure. -/
theorem foldl_addHier_parents (pns : List (String × GNode))
    (childTypes : List String) (g : KGraph)
    (hg : edgesClosed g) (hid : idsConsistent g)
    (hps : ∀ pn ∈ pns, containsKey g.nodes pn.2.id = true) :
    (pns.foldl
      (fun g2 pn =>
        (g2.nodes.filter fun p => childTypes.contains p.2.ntype).foldl
          (fun g3 cn => addHierEdge g3 pn.2.id cn.2.id) g2)
      g).nodes = g.nodes ∧
    edgesClosed (pns.foldl
      (fun g2 pn =>
        (g2.nodes.filter fun p => childTypes.contains p.2.ntype).foldl
          (fun g3 cn => addHierEdge g3 pn.2.id cn.2.id) g2)
      g) ∧
    idsConsistent (pns.foldl
      (fun g2 pn =>
        (g2.nodes.filter fun p => childTypes.contains p.2.ntype).foldl
          (fun g3 cn => addHierEdge g3 pn.2.id cn.2.id) g2)
      g) := by
  induction pns generalizing g with
  | nil => exact ⟨rfl, hg, hid⟩
  | cons pn pns ih =>
    rw [List.foldl_cons]
    have hchild : ∀ cn ∈ g.nodes.filter fun p => childTypes.contains p.2.ntype,
        containsKey g.nodes cn.2.id = true := by
      intro cn hc
      have hmem := List.mem_of_mem_filter hc
      rw [hid cn hmem]
      simp only [containsKey, List.any_eq_true]
      exact ⟨cn, hmem, by simp⟩
    rcases foldl_addHier_inner _ g pn.2.id hg (hps pn (List.mem_cons_self _ _)) hchild
      with ⟨hn, hcl⟩
    have hid2 : idsConsistent ((g.nodes.filter fun p =>
        childTypes.contains p.2.ntype).foldl
        (fun g3 cn => addHierEdge g3 pn.2.id cn.2.id) g) := by
      intro p hp2
      rw [hn] at hp2
      exact hid p hp2
    rcases ih _ hcl hid2 (fun q hq => by rw [hn]; exact hps q (List.mem_cons_of_mem _ hq))
      with ⟨h1, h2, h3⟩
    exact ⟨by rw [h1, hn], h2, h3⟩

/-- The ontology loop of `applyDomainKnowledge` preserves nodes and
closure. -/
theorem foldl_addHier_outer (hier : List (String × List String)) (g : KGraph)
    (hg : edgesClosed g) (hid : idsConsistent g) :
    (hier.foldl
      (fun g1 pc =>
        (g1.nodes.filter fun p => p.2.ntype == pc.1).foldl
          (fun g2 pn =>
            (g2.nodes.filter fun p => pc.2.contains p.2.ntype).foldl
              (fun g3 cn => addHierEdge g3 pn.2.id cn.2.id) g2)
          g1)
      g).nodes = g.nodes ∧
    edgesClosed (hier.foldl
      (fun g1 pc =>
        (g1.nodes.filter fun p => p.2.ntype == pc.1).foldl
          (fun g2 pn =>
            (g2.nodes.filter fun p => pc.2.contains p.2.ntype).foldl
              (fun g3 cn => addHierEdge g3 pn.2.id cn.2.id) g2)
          g1)
      g) := by
  induction hier generalizing g with
  | nil => exact ⟨rfl, hg⟩
  | cons pc hier ih =>
    rw [List.foldl_cons]
    have hps : ∀ pn ∈ g.nodes.filter fun p => p.2.ntype == pc.1,
        containsKey g.nodes pn.2.id = true := by
      intro pn hp2
      have hmem := List.mem_of_mem_filter hp2
      rw [hid pn hmem]
      simp only [containsKey, List.any_eq_true]
      exact ⟨pn, hmem, by simp⟩
    rcases foldl_addHier_parents _ pc.2 g hg hid hps with ⟨hn, hcl, hid2⟩
    rcases ih _ hcl hid2 with ⟨h1, h2⟩
    exact ⟨by rw [h1, hn], h2⟩

/-- `applyDomainKnowledge` preserves nodes and closure on id-consistent
graphs. -/
theorem applyDomainKnowledge_closed (g : KGraph) (d : String) (hg : edgesClosed g)
    (hid : idsConsistent g) :
    (applyDomainKnowledge g d).nodes = g.nodes ∧
    edgesClosed (applyDomainKnowledge g d) := by
  unfold applyDomainKnowledge
  cases ontologyHierarchy.lookup d with
  | none => exact ⟨rfl, hg⟩
  | some hier => exact foldl_addHier_outer hier g hg hid

/-- Folding `addNode` from a closed, id-consistent graph keeps both
invariants. -/
theorem foldl_addNode_invariants (es : List Entity) (g : KGraph)
    (hg : edgesClosed g) (hid : idsConsistent g) :
    edgesClosed (es.foldl addNode g) ∧ idsConsistent (es.foldl addNode g) := by
  induction es generalizing g with
  | nil => exact ⟨hg, hid⟩
  | cons e es ih => exact ih _ (addNode_closed g e hg) (addNode_ids g e hid)

/-- Folding `addEdge` never changes the node map. -/
theorem foldl_addEdge_nodes (rs : List EntityRelationship) (g : KGraph) :
    (rs.foldl addEdge g).nodes = g.nodes := by
  induction rs generalizing g with
  | nil => rfl
  | cons r rs ih => rw [List.foldl_cons, ih, addEdge_nodes]

/-- Folding `addEdge` preserves closure. -/
theorem foldl_addEdge_closed (rs : List EntityRelationship) (g : KGraph)
    (hg : edgesClosed g) : edgesClosed (rs.foldl addEdge g) := by
  induction rs generalizing g with
  | nil => exact hg
  | cons r rs ih => exact ih _ (addEdge_closed g r hg)

/-- The importance step rewrites node values only, keeping keys. -/
theorem importanceStep_containsKey (N : Nat) (g : KGraph) (k : String) :
    containsKey (importanceStep N g).nodes k = containsKey g.nodes k := by
  show containsKey (g.nodes.map _) k = containsKey g.nodes k
  apply containsKey_map_fst
  intro p
  rfl

/-- The importance loop keeps the edge map. -/
theorem importanceLoop_edges (N n : Nat) (g : KGraph) :
    (importanceLoop N n g).1.edges = g.edges := by
  induction n generalizing g with
  | zero => rfl
  | succ n ih =>
    show (importanceLoop N n (importanceStep N g)).1.edges = g.edges
    rw [ih, importanceStep_edges]

/-- The importance loop keeps the node keys. -/
theorem importanceLoop_containsKey (N n : Nat) (g : KGraph) (k : String) :
    containsKey (importanceLoop N n g).1.nodes k = containsKey g.nodes k := by
  induction n generalizing g with
  | zero => rfl
  | succ n ih =>
    show containsKey (importanceLoop N n (importanceStep N g)).1.nodes k = _
    rw [ih, importanceStep_containsKey]

/-- `calculateNodeImportance` preserves closure. -/
theorem calculateNodeImportance_closed (g : KGraph) (hg : edgesClosed g) :
    edgesClosed (calculateNodeImportance g) := by
  intro p hp
  have hedge : p ∈ g.edges := by
    have h1 : (calculateNodeImportance g).edges = g.edges := by
      show (importanceLoop _ 50 _).1.edges = g.edges
      rw [importanceLoop_edges]
      rfl
    rw [h1] at hp
    exact hp
  rcases hg p hedge with ⟨h1, h2⟩
  have hkeys : ∀ k, containsKey (calculateNodeImportance g).nodes k =
      containsKey g.nodes k := by
    intro k
    show containsKey (importanceLoop _ 50 _).1.nodes k = _
    rw [importanceLoop_containsKey]
    show containsKey (g.nodes.map _) k = containsKey g.nodes k
    apply containsKey_map_fst
    intro p
    rfl
  rw [hkeys, hkeys]
  exact ⟨h1, h2⟩

/-- Every graph the builder returns is edge-closed. -/
theorem buildGraphFrom_closed (entities : List Entity)
    (rels : List EntityRelationship) (domain : Option String) :
    edgesClosed (buildGraphFrom entities rels domain) := by
  rcases foldl_addNode_invariants entities { nodes := [], edges := [] }
    (fun p hp => absurd hp (List.not_mem_nil p))
    (fun p hp => absurd hp (List.not_mem_nil p)) with ⟨hc1, hi1⟩
  have hc2 : edgesClosed (rels.foldl addEdge
      (entities.foldl addNode { nodes := [], edges := [] })) :=
    foldl_addEdge_closed rels _ hc1
  have hi2 : idsConsistent (rels.foldl addEdge
      (entities.foldl addNode { nodes := [], edges := [] })) := by
    intro p hp
    rw [foldl_addEdge_nodes] at hp
    exact hi1 p hp
  cases domain with
  | none => exact calculateNodeImportance_closed _ hc2
  | some d =>
    rcases Bool.eq_false_or_eq_true (containsKey ontologyHierarchy d) with hd | hd
    · have heq : buildGraphFrom entities rels (some d) =
          calculateNodeImportance (applyDomainKnowledge
            (rels.foldl addEdge (entities.foldl addNode { nodes := [], edges := [] })) d) := by
        simp [buildGraphFrom, hd]
      rw [heq]
      exact calculateNodeImportance_closed _
        (applyDomainKnowledge_closed _ d hc2 hi2).2
    · have heq : buildGraphFrom entities rels (some d) =
          calculateNodeImportance
            (rels.foldl addEdge (entities.foldl addNode { nodes := [], edges := [] })) := by
        simp [buildGraphFrom, hd]
      rw [heq]
      exact calculateNodeImportance_closed _ hc2

/-- C6: in every graph `buildGraph` returns — including after the
domain-ontology overlay adds `hierarchical` edges — both endpoint ids of
every edge key the node map; and `addEdge` silently drops any extracted
relationship with a missing endpoint, leaving the graph unchanged. -/
theorem c6_edges_reference_existing_nodes :
    (∀ (entities : List Entity) (rels : List EntityRelationship)
        (domain : Option String),
      ∀ p ∈ (buildGraphFrom entities rels domain).edges,
        containsKey (buildGraphFrom entities rels domain).nodes p.2.source = true ∧
        containsKey (buildGraphFrom entities rels domain).nodes p.2.target = true) ∧
    (∀ (g : KGraph) (rel : EntityRelationship),
      (containsKey g.nodes (generateNodeId rel.entity1) = false ∨
       containsKey g.nodes (generateNodeId rel.entity2) = false) →
      addEdge g rel = g) := by
  constructor
  · intro entities rels domain p hp
    exact buildGraphFrom_closed entities rels domain p hp
  · intro g rel h
    simp only [addEdge]
    rcases h with h | h <;> rw [if_pos (by rw [h]; simp)]

/-- A second concrete entity for the C6 witness. -/
def entB : Entity := { name := "B", etype := "concept", confidence := mkRat 9 10, context := "" }

/-- A concrete relationship between the two witness entities. -/
def relAB : EntityRelationship :=
  { entity1 := "a", entity2 := "B", relationship := "relatedTo",
    confidence := mkRat 7 10 }

/-- The edge the builder stores for `relAB`. -/
def edgeAB : String × GEdge :=
  ("a-relatedTo-b",
   { source := "a", target := "b", relationship := "relatedTo",
     weight := mkRat 7 10 })

/-- C6 witness: the concrete two-node graph is closed at its one edge, and a
relationship into an empty graph is dropped. -/
theorem c6_witness :
    (containsKey (buildGraphFrom [entA, entB] [relAB] none).nodes edgeAB.2.source = true ∧
     containsKey (buildGraphFrom [entA, entB] [relAB] none).nodes edgeAB.2.target = true) ∧
    addEdge { nodes := [], edges := [] } relAB = { nodes := [], edges := [] } :=
  ⟨c6_edges_reference_existing_nodes.1 [entA, entB] [relAB] none edgeAB (by decide),
   c6_edges_reference_existing_nodes.2 { nodes := [], edges := [] } relAB
     (Or.inl (by decide))⟩

/-! ## Vector embeddings engine
(`app/lib/intelligence/vector-embeddings-engine.ts`)

JavaScript floats are modelled as real numbers; `Math.sqrt` is `Real.sqrt`
and the division-by-zero edge cases the source guards against follow Lean's
`x / 0 = 0` convention where unguarded. -/

/-- Split a character list on whitespace runs, dropping empty pieces (the
empty fragments JS `split(/\s+/)` can produce are all removed by the
`length > 0` filter that follows it in the source). -/
def splitWsGo (cur : List Char) : List Char → List String
  | [] => if cur.isEmpty then [] else [String.mk cur.reverse]
  | c :: cs =>
    if jsSpace c then
      if cur.isEmpty then splitWsGo [] cs
      else String.mk cur.reverse :: splitWsGo [] cs
    else splitWsGo (c :: cur) cs

/-- Whitespace split of a character list. -/
def splitWs (l : List Char) : List String := splitWsGo [] l

/-- The stopword list of `VectorEmbeddingsEngine.initializeStopwords`. -/
def embedStopwords : List String :=
  ["the", "is", "at", "which", "on", "and", "a", "an", "as", "are",
   "was", "were", "been", "be", "have", "has", "had", "do", "does",
   "did", "will", "would", "could", "should", "may", "might", "must",
   "shall", "can", "need", "ought", "to", "of", "in", "for", "with",
   "by", "from", "about", "into", "through", "during", "before", "after",
   "above", "below", "up", "down", "out", "off", "over", "under", "again",
   "further", "then", "once", "here", "there", "when", "where", "why",
   "how", "all", "both", "each", "few", "more", "most", "other", "some",
   "such", "no", "nor", "not", "only", "own", "same", "so", "than",
   "too", "very", "it", "its", "itself", "they", "them", "their",
   "theirs", "themselves", "what", "which", "who", "whom", "this",
   "that", "these", "those", "i", "me", "my", "myself", "we", "our",
   "ours", "ourselves", "you", "your", "yours", "yourself", "yourselves",
   "he", "him", "his", "himself", "she", "her", "hers", "herself"]

/-- `VectorEmbeddingsEngine.tokenize`: lowercase, non-word non-space
characters to spaces, split, drop empties and stopwords. -/
def tokenize (text : String) : List String :=
  (splitWs ((jsLower text).toList.map fun c =>
    if !(jsWord c) && !(jsSpace c) then ' ' else c)).filter fun t =>
      !(embedStopwords.contains t)

/-- The `commonTerms` vocabulary of `initializeVocabulary`, in insertion
order (index `i` of the vocabulary map is position `i` here). -/
def commonTerms : List String :=
  ["article", "blogposting", "product", "review", "recipe", "howto",
   "event", "organization", "person", "place", "service", "offer",
   "name", "description", "author", "publisher", "date", "image",
   "price", "rating", "location", "address", "phone", "email",
   "technology", "business", "health", "education", "fitness",
   "food", "travel", "entertainment", "sports", "fashion",
   "buy", "sell", "learn", "teach", "create", "make", "build",
   "develop", "design", "improve", "optimize", "analyze"]

/-- The model dimension (768). -/
def modelDimension : Nat := 768

/-- Term frequency of a vocabulary term: count over the token list divided by
the token count (an exact rational; for an empty token list JS produces `0/0
= NaN`, here `0`). -/
def tfQ (tokens : List String) (term : String) : ℚ :=
  (tokens.count term : ℚ) / (tokens.length : ℚ)

/-- The default IDF weight `Math.log(100)`; the `model.idf` map is never
populated anywhere in the source, so every term uses the default. -/
noncomputable def idfDefault : ℝ := Real.log 100

/-- `calculateTfIdf`: one `tf * idf` entry per vocabulary term, at the term's
vocabulary index. -/
noncomputable def tfIdfBand (tokens : List String) : List ℝ :=
  commonTerms.map fun term => ((tfQ tokens term : ℝ)) * idfDefault

/-- Pad with zeros to length `n` and truncate (`while (features.length < n)
features.push(0); return features.slice(0, n)`). -/
def padTrunc (n : Nat) (l : List ℚ) : List ℚ :=
  (l ++ List.replicate (n - l.length) 0).take n

/-- Count of single characters satisfying a class (`match(/X/g).length`). -/
def countChar (p : Char → Bool) (text : String) : Nat := text.toList.countP p

/-- Count of maximal digit runs (`match(/\d+/g).length`). -/
def digitRunCount (text : String) : Nat :=
  scanCount (fun _ => mmany1 Char.isDigit) text.toList

/-- Schema-type indicator substrings of `extractSemanticFeatures`. -/
def semanticSchemaTypes : List String :=
  ["article", "blog", "product", "review", "recipe", "howto",
   "event", "job", "course", "faq", "video", "local"]

/-- Industry keyword groups of `extractSemanticFeatures`. -/
def semanticIndustries : List (List String) :=
  [["software", "app", "digital", "tech"],
   ["health", "medical", "doctor", "patient"],
   ["money", "invest", "finance", "bank"],
   ["learn", "course", "student", "teach"],
   ["buy", "shop", "product", "price"]]

/-- `extractSemanticFeatures` (values at dimensions 300-499 of the vector):
schema-type hits, length/question/number/capitalisation/newline statistics,
industry keyword ratios, zero-padded to 200.  All values are exact
rationals. -/
def extractSemanticFeaturesQ (text : String) : List ℚ :=
  let textLower := jsLower text
  padTrunc 200
    ((semanticSchemaTypes.map fun t => if jsIncludes textLower t then (1 : ℚ) else 0) ++
     [(text.length : ℚ) / 1000,
      (countChar (· = '?') text : ℚ) / 10,
      (digitRunCount text : ℚ) / 10,
      (countChar Char.isUpper text : ℚ) / (text.length : ℚ),
      (countChar (· = '\n') text : ℚ) / 10] ++
     (semanticIndustries.map fun kws =>
       ((kws.countP fun kw => jsIncludes textLower kw : ℚ)) / (kws.length : ℚ)))

/-- Underscore-joined bigrams of consecutive tokens. -/
def bigramsOf (tokens : List String) : List String :=
  (tokens.zip tokens.tail).map fun p => p.1 ++ "_" ++ p.2

/-- Underscore-joined trigrams of consecutive tokens. -/
def trigramsOf (tokens : List String) : List String :=
  ((tokens.zip tokens.tail).zip tokens.tail.tail).map fun p =>
    p.1.1 ++ "_" ++ p.1.2 ++ "_" ++ p.2

/-- Keep the first occurrence of each element (JS `Set` built from an
array, or a `Map`'s key set). -/
def dedupGo (seen : List String) : List String → List String
  | [] => []
  | x :: xs =>
    if seen.contains x then dedupGo seen xs else x :: dedupGo (x :: seen) xs

/-- First-occurrence deduplication. -/
def dedupFirst (l : List String) : List String := dedupGo [] l

/-- The schema-related bigram table of `extractNgramFeatures`. -/
def importantBigrams : List String :=
  ["how_to", "step_by", "by_step", "product_review", "best_practices",
   "getting_started", "complete_guide", "ultimate_guide", "for_beginners"]

/-- `extractNgramFeatures` (dimensions 500-699): counts of the important
bigrams, bigram and trigram diversity ratios, zero-padded to 200. -/
def extractNgramFeaturesQ (tokens : List String) : List ℚ :=
  let bigrams := bigramsOf tokens
  let trigrams := trigramsOf tokens
  padTrunc 200
    ((importantBigrams.map fun b => (bigrams.count b : ℚ)) ++
     [((dedupFirst bigrams).length : ℚ) / (tokens.length : ℚ),
      ((dedupFirst trigrams).length : ℚ) / (tokens.length : ℚ)])

/-- Sentiment/action/temporal word groups of `extractContextualFeatures`. -/
def contextualWordGroups : List (List String) :=
  [["good", "great", "excellent", "best", "amazing", "love"],
   ["bad", "poor", "worst", "terrible", "hate", "awful"],
   ["create", "make", "build", "develop", "design", "implement"],
   ["today", "tomorrow", "yesterday", "now", "soon", "recent"]]

/-- `extractContextualFeatures` (dimensions 700-767): one keyword-hit ratio
per word group, zero-padded to 68. -/
def extractContextualFeaturesQ (text : String) : List ℚ :=
  let textLower := jsLower text
  padTrunc 68
    (contextualWordGroups.map fun ws =>
      ((ws.countP fun w => jsIncludes textLower w : ℚ)) / (ws.length : ℚ))

/-- Sum of squares (`vector.reduce((sum, val) => sum + val * val, 0)`). -/
def sumSq (v : List ℝ) : ℝ := v.foldl (fun s x => s + x * x) 0

/-- `VectorEmbeddingsEngine.normalizeVector`: divide by the L2 magnitude
unless it is zero. -/
noncomputable def normalizeVector (v : List ℝ) : List ℝ :=
  let magnitude := Real.sqrt (sumSq v)
  if magnitude = 0 then v else v.map (· / magnitude)

/-- The raw 768-entry feature vector `generateVector` assembles before
normalising: the 46 vocabulary tf-idf entries occupy dimensions 0-45 (the
`Math.min(300, …)` copy), dimensions 46-299 stay zero, then the three
200/200/68-entry bands at offsets 300, 500 and 700. -/
noncomputable def rawVector (tokens : List String) (text : String) : List ℝ :=
  tfIdfBand tokens ++ List.replicate 254 0 ++
  (extractSemanticFeaturesQ text).map (fun q => (q : ℝ)) ++
  (extractNgramFeaturesQ tokens).map (fun q => (q : ℝ)) ++
  (extractContextualFeaturesQ text).map (fun q => (q : ℝ))

/-- `VectorEmbeddingsEngine.generateVector`, the vector `createEmbedding`
stores: the raw feature vector, L2-normalised. -/
noncomputable def generateVector (tokens : List String) (text : String) : List ℝ :=
  normalizeVector (rawVector tokens text)

/-- `VectorEmbeddingsEngine.cosineSimilarity`: zero on mismatched lengths or
a zero denominator. -/
noncomputable def cosineSimilarity (v1 v2 : List ℝ) : ℝ :=
  if v1.length ≠ v2.length then 0
  else
    let dotProduct := (v1.zip v2).foldl (fun s p => s + p.1 * p.2) 0
    let denominator := Real.sqrt (sumSq v1) * Real.sqrt (sumSq v2)
    if denominator = 0 then 0 else dotProduct / denominator

/-- Embedding metadata (`metadata` of `VectorEmbedding`). -/
structure EmbMetadata where
  text : String
  mtype : String
  source : Option String
  timestamp : Option String
deriving Repr, DecidableEq

/-- A stored embedding. -/
structure VectorEmbedding where
  id : String
  vector : List ℝ
  metadata : EmbMetadata

/-- The in-memory embeddings map, in insertion order. -/
abbrev EmbStore := List (String × VectorEmbedding)

/-- JS `Map.prototype.set`. -/
def mapSet (m : EmbStore) (k : String) (v : VectorEmbedding) : EmbStore :=
  if containsKey m k then m.map fun p => if p.1 == k then (k, v) else p
  else m ++ [(k, v)]

/-- An exported record of `exportEmbeddings`. -/
structure ExportedEmbedding where
  id : String
  vector : List ℝ
  metadata : EmbMetadata

/-- `VectorEmbeddingsEngine.exportEmbeddings`. -/
def exportEmbeddings (store : EmbStore) : List ExportedEmbedding :=
  store.map fun p => { id := p.1, vector := p.2.vector, metadata := p.2.metadata }

/-- `VectorEmbeddingsEngine.importEmbeddings`: clear, then re-insert every
record keyed by its id. -/
def importEmbeddings (data : List ExportedEmbedding) : EmbStore :=
  data.foldl
    (fun st item => mapSet st item.id
      { id := item.id, vector := item.vector, metadata := item.metadata })
    []

/-- A similarity search result. -/
structure SimilarityResult where
  id : String
  similarity : ℝ
  metadata : EmbMetadata

/-- Stable insertion descending by similarity (JS stable `sort` with
comparator `b.similarity - a.similarity`). -/
noncomputable def insertBySimDesc (x : SimilarityResult) :
    List SimilarityResult → List SimilarityResult
  | [] => [x]
  | y :: ys =>
    if x.similarity ≤ y.similarity then y :: insertBySimDesc x ys
    else x :: y :: ys

/-- `VectorEmbeddingsEngine.findSimilar` on a numeric query vector (the
string overload first embeds the query and is outside claim C8's scope):
collect every stored embedding whose cosine similarity strictly exceeds the
threshold, sort descending, take `k`. -/
noncomputable def findSimilar (store : EmbStore) (vector : List ℝ) (k : Nat)
    (threshold : ℝ) : List SimilarityResult :=
  let results := store.filterMap fun p =>
    let similarity := cosineSimilarity vector p.2.vector
    if threshold < similarity then
      some { id := p.1, similarity := similarity, metadata := p.2.metadata }
    else none
  (results.foldl (fun acc x => insertBySimDesc x acc) []).take k

/-- Index of the closest centroid by cosine distance `1 - cos`: fold with
running minimum; `none` models the initial `Infinity`, which every first
comparison beats. -/
noncomputable def closestCluster (v : List ℝ) (centroids : List (List ℝ)) : Nat :=
  (centroids.foldl
    (fun (st : Option ℝ × Nat × Nat) c =>
      let distance := 1 - cosineSimilarity v c
      match st.1 with
      | none => (some distance, st.2.2, st.2.2 + 1)
      | some d =>
        if distance < d then (some distance, st.2.2, st.2.2 + 1)
        else (st.1, st.2.1, st.2.2 + 1))
    (none, 0, 0)).2.1

/-- The assignment step of the k-means loop: cluster `i` collects, in store
order, the ids whose vector is closest to centroid `i`. -/
noncomputable def assignClusters (embs : EmbStore) (centroids : List (List ℝ))
    (k : Nat) : List (List String) :=
  (List.range k).map fun i =>
    (embs.filter fun p => closestCluster p.2.vector centroids == i).map (·.1)

/-- `VectorEmbeddingsEngine.updateCentroids`: empty clusters get a zero
centroid; otherwise sum the member vectors, average, and L2-normalise. -/
noncomputable def updateCentroids (clusters : List (List String)) (embs : EmbStore)
    (dim : Nat) : List (List ℝ) :=
  clusters.map fun clusterIds =>
    if clusterIds.length = 0 then List.replicate dim 0
    else
      let centroid := clusterIds.foldl
        (fun acc id =>
          match embs.find? fun p => p.1 == id with
          | some p => acc.zipWith (· + ·) p.2.vector
          | none => acc)
        (List.replicate dim 0)
      normalizeVector (centroid.map (· / (clusterIds.length : ℝ)))

/-- The convergence test of `clusterEmbeddings`: converged when every
centroid's cosine similarity to its update is at least 0.99. -/
noncomputable def kmeansConverged (cs ns : List (List ℝ)) (k : Nat) : Bool :=
  (List.range k).all fun i =>
    if cosineSimilarity (cs.getD i []) (ns.getD i []) < 99/100 then false else true

/-- The iteration loop of `clusterEmbeddings`, counting executed bodies: each
round reassigns, recomputes centroids, and `break`s once converged (the
centroids are replaced by the new ones before the break). -/
noncomputable def kmeansLoop (embs : EmbStore) (k : Nat) :
    Nat → List (List ℝ) → List (List String) →
    List (List String) × List (List ℝ) × Nat
  | 0, centroids, clusters => (clusters, centroids, 0)
  | n + 1, centroids, _ =>
    let clusters := assignClusters embs centroids k
    let newCentroids := updateCentroids clusters embs modelDimension
    if kmeansConverged centroids newCentroids k then (clusters, newCentroids, 1)
    else
      let r := kmeansLoop embs k n newCentroids clusters
      (r.1, r.2.1, r.2.2 + 1)

/-- `VectorEmbeddingsEngine.clusterEmbeddings` with its executed iteration
count.  `initialCentroids` stands for the output of the random k-means++
seeding (`initializeCentroids`); for a single stored embedding the seeding
deterministically copies that embedding's vector, since
`Math.floor(Math.random() * 1) = 0`. -/
noncomputable def clusterEmbeddingsRun (store : EmbStore) (numClusters : Nat)
    (initialCentroids : List (List ℝ)) :
    List (List String) × List (List ℝ) × Nat :=
  let k := if store.length < numClusters then store.length else numClusters
  kmeansLoop store k 50 initialCentroids []

/-! ### Claim C7: vectors stored by `createEmbedding` are L2-normalised -/

/-- Real-valued left fold of accumulation equals the sum of the mapped
list. -/
theorem foldl_add_eq_sum_real {α : Type} (f : α → ℝ) (l : List α) (a : ℝ) :
    l.foldl (fun acc x => acc + f x) a = a + (l.map f).sum := by
  induction l generalizing a with
  | nil => simp
  | cons x xs ih => simp [List.foldl_cons, ih, add_assoc]

/-- `sumSq` as a list sum. -/
theorem sumSq_eq_sum (v : List ℝ) : sumSq v = (v.map fun x => x * x).sum := by
  have h := foldl_add_eq_sum_real (fun x => x * x) v 0
  simpa [sumSq] using h

/-- `sumSq` is nonnegative. -/
theorem sumSq_nonneg (v : List ℝ) : 0 ≤ sumSq v := by
  rw [sumSq_eq_sum]
  apply List.sum_nonneg
  intro x hx
  rcases List.mem_map.mp hx with ⟨y, _, rfl⟩
  exact mul_self_nonneg y

/-- `sumSq` vanishes exactly on all-zero vectors. -/
theorem sumSq_eq_zero_iff (v : List ℝ) : sumSq v = 0 ↔ ∀ x ∈ v, x = 0 := by
  rw [sumSq_eq_sum]
  induction v with
  | nil => simp
  | cons x xs ih =>
    simp only [List.map_cons, List.sum_cons, List.mem_cons]
    constructor
    · intro h
      have hx : 0 ≤ x * x := mul_self_nonneg x
      have hxs : 0 ≤ (xs.map fun y => y * y).sum := by
        apply List.sum_nonneg
        intro z hz
        rcases List.mem_map.mp hz with ⟨y, _, rfl⟩
        exact mul_self_nonneg y
      have h1 : x * x = 0 := by linarith
      have h2 : (xs.map fun y => y * y).sum = 0 := by linarith
      intro y hy
      rcases hy with rfl | hy
      · exact mul_self_eq_zero.mp h1
      · exact (ih.mp h2) y hy
    · intro h
      have hx : x = 0 := h x (Or.inl rfl)
      have hxs : ∀ y ∈ xs, y = 0 := fun y hy => h y (Or.inr hy)
      simp [hx, ih.mpr hxs]

/-- Dividing every entry by `m` scales the sum of squares by `1 / m²`. -/
theorem sumSq_map_div (v : List ℝ) (m : ℝ) :
    sumSq (v.map (· / m)) = sumSq v / m ^ 2 := by
  rw [sumSq_eq_sum, sumSq_eq_sum]
  induction v with
  | nil => simp
  | cons x xs ih =>
    simp only [List.map_cons, List.sum_cons]
    rw [add_div, ← ih]
    congr 1
    rw [div_mul_div_comm, pow_two]

/-- A member of a list stays a member after zero-padding and truncation,
provided the list fits inside the target length. -/
theorem mem_padTrunc {q : ℚ} {l : List ℚ} {n : Nat} (hq : q ∈ l)
    (hlen : l.length ≤ n) : q ∈ padTrunc n l := by
  unfold padTrunc
  rw [List.take_append_eq_append_take, List.take_of_length_le hlen]
  exact List.mem_append_left _ hq

/-- The `text.length / 1000` feature always occupies a slot of the semantic
band of the raw feature vector. -/
theorem length_feature_mem (tokens : List String) (text : String) :
    (((text.length : ℚ) / 1000 : ℚ) : ℝ) ∈ rawVector tokens text := by
  have hmem : ((text.length : ℚ) / 1000) ∈ extractSemanticFeaturesQ text := by
    simp only [extractSemanticFeaturesQ]
    apply mem_padTrunc
    · exact List.mem_append_left _
        (List.mem_append_right _ (List.mem_cons_self _ _))
    · simp [semanticSchemaTypes, semanticIndustries]
  unfold rawVector
  exact List.mem_append_left _ (List.mem_append_left _ (List.mem_append_right _
    (List.mem_map_of_mem (fun q : ℚ => (q : ℝ)) hmem)))

/-- **C7.** Every vector `createEmbedding` stores (the output of
`generateVector`) has L2 norm exactly 1 when the assembled raw feature
vector has a nonzero entry; an all-zero raw vector is returned unchanged by
`normalizeVector`'s zero-magnitude guard.  (Stated over exact reals; the
`NaN` values JS floats can produce when `tokens` is empty follow Lean's
`x / 0 = 0` convention here.) -/
theorem c7_generateVector_normalized (tokens : List String) (text : String) :
    ((∀ x ∈ rawVector tokens text, x = 0) →
      generateVector tokens text = rawVector tokens text) ∧
    (¬(∀ x ∈ rawVector tokens text, x = 0) →
      Real.sqrt (sumSq (generateVector tokens text)) = 1) := by
  constructor
  · intro hall
    have h0 : sumSq (rawVector tokens text) = 0 :=
      (sumSq_eq_zero_iff _).mpr hall
    simp [generateVector, normalizeVector, h0, Real.sqrt_zero]
  · intro hne
    have h0 : sumSq (rawVector tokens text) ≠ 0 :=
      fun h => hne ((sumSq_eq_zero_iff _).mp h)
    have hpos : 0 < sumSq (rawVector tokens text) :=
      lt_of_le_of_ne (sumSq_nonneg _) (Ne.symm h0)
    have hs : Real.sqrt (sumSq (rawVector tokens text)) ≠ 0 :=
      Real.sqrt_ne_zero'.mpr hpos
    simp only [generateVector, normalizeVector, if_neg hs]
    rw [sumSq_map_div, Real.sq_sqrt (le_of_lt hpos), div_self h0, Real.sqrt_one]

/-- Witness for C7: the text `"zzz"` (tokenised by the engine's own
`tokenize`) has a nonzero raw feature vector, so its stored vector has unit
norm. -/
theorem c7_witness :
    Real.sqrt (sumSq (generateVector (tokenize "zzz") "zzz")) = 1 := by
  apply (c7_generateVector_normalized (tokenize "zzz") "zzz").2
  intro hall
  have hz := hall _ (length_feature_mem (tokenize "zzz") "zzz")
  have h3 : String.length "zzz" = 3 := by decide
  rw [h3] at hz
  push_cast at hz
  norm_num at hz

/-! ### Claim C8: export/import round-trip -/

/-- A store is well-formed when its ids are unique and every entry is keyed
by its embedding's own id — invariants each `this.embeddings.set(id, {id,…})`
insertion in the engine maintains. -/
def wellFormedStore (store : EmbStore) : Prop :=
  (store.map Prod.fst).Nodup ∧ ∀ p ∈ store, p.2.id = p.1

/-- Folding `Map.set` over records whose ids are fresh and mutually distinct
just appends them in order. -/
theorem import_foldl (data : List ExportedEmbedding) (acc : EmbStore)
    (hdisj : ∀ d ∈ data, containsKey acc d.id = false)
    (hnodup : (data.map (·.id)).Nodup) :
    data.foldl
      (fun st item => mapSet st item.id
        { id := item.id, vector := item.vector, metadata := item.metadata })
      acc =
      acc ++ (data.map fun item =>
        (item.id,
         { id := item.id, vector := item.vector,
           metadata := item.metadata : VectorEmbedding })) := by
  induction data generalizing acc with
  | nil => simp
  | cons d ds ih =>
    simp only [List.foldl_cons, List.map_cons]
    have hd : containsKey acc d.id = false := hdisj d (List.mem_cons_self _ _)
    have hset : mapSet acc d.id
        { id := d.id, vector := d.vector, metadata := d.metadata } =
        acc ++ [(d.id,
          { id := d.id, vector := d.vector,
            metadata := d.metadata : VectorEmbedding })] := by
      simp [mapSet, hd]
    rw [hset, ih]
    · simp
    · intro e he
      have h1 : containsKey acc e.id = false := hdisj e (List.mem_cons_of_mem _ he)
      have h2 : d.id ≠ e.id := by
        intro hEq
        have hmem : e.id ∈ List.map (fun x => x.id) ds :=
          List.mem_map_of_mem _ he
        apply (List.nodup_cons.mp hnodup).1
        show d.id ∈ List.map (fun x => x.id) ds
        rw [hEq]
        exact hmem
      simp [containsKey, List.any_append] at h1 ⊢
      exact ⟨h1, h2⟩
    · exact (List.nodup_cons.mp hnodup).2

/-- **C8.** On a well-formed store, `importEmbeddings (exportEmbeddings s)`
rebuilds exactly the original store (same entries, same insertion order), so
every subsequent `findSimilar` query answers identically before and after
the round-trip. -/
theorem c8_export_import_roundtrip (store : EmbStore)
    (h : wellFormedStore store) :
    importEmbeddings (exportEmbeddings store) = store ∧
    ∀ (v : List ℝ) (k : Nat) (t : ℝ),
      findSimilar (importEmbeddings (exportEmbeddings store)) v k t =
        findSimilar store v k t := by
  have hmain : importEmbeddings (exportEmbeddings store) = store := by
    unfold importEmbeddings exportEmbeddings
    rw [import_foldl]
    · rw [List.nil_append, List.map_map]
      conv_rhs => rw [show store = store.map id from (List.map_id store).symm]
      apply List.map_congr_left
      intro p hp
      obtain ⟨a, i, vec, md⟩ := p
      have hid : i = a := h.2 _ hp
      subst hid
      rfl
    · intro d _
      rfl
    · rw [List.map_map]
      have : ((store.map fun p =>
          ({ id := p.1, vector := p.2.vector, metadata := p.2.metadata :
            ExportedEmbedding })).map (·.id)) = store.map Prod.fst := by
        rw [List.map_map]; rfl
      rw [List.map_map] at this
      exact this ▸ h.1
  exact ⟨hmain, fun v k t => by rw [hmain]⟩

/-- A concrete two-embedding store used to witness C8. -/
def c8Store : EmbStore :=
  [("e1", { id := "e1", vector := [1, 0],
            metadata := { text := "alpha", mtype := "text",
                          source := none, timestamp := none } }),
   ("e2", { id := "e2", vector := [0, 1],
            metadata := { text := "beta", mtype := "text",
                          source := none, timestamp := none } })]

/-- Witness for C8: the concrete store is well-formed and survives the
round-trip. -/
theorem c8_witness :
    importEmbeddings (exportEmbeddings c8Store) = c8Store :=
  (c8_export_import_roundtrip c8Store ⟨by decide, by decide⟩).1

/-! ## Topic modeling (`app/lib/intelligence/advanced-nlp-features.ts`) -/

/-- `AdvancedNLPFeatures.normalizeVector`: divides by the *sum* of the
entries (not the L2 norm), with a zero-sum guard. -/
noncomputable def normalizeVectorSum (v : List ℝ) : List ℝ :=
  let s := v.foldl (fun a b => a + b) 0
  if s = 0 then v else v.map (· / s)

/-- One pass of the topic refinement loop of `performTopicModeling`: each
topic vector is replaced by the similarity-weighted sum of the document
vectors, sum-normalised.  (`AdvancedNLPFeatures.cosineSimilarity` is
textually identical to the vector engine's `cosineSimilarity` embedded
above, so that definition is reused here.) -/
noncomputable def topicStep (docM : List (List ℝ)) (numTerms : Nat)
    (topicM : List (List ℝ)) : List (List ℝ) :=
  topicM.map fun tv =>
    normalizeVectorSum (docM.foldl
      (fun acc dv => acc.zipWith (fun a x => a + x * cosineSimilarity dv tv) dv)
      (List.replicate numTerms 0))

/-- The refinement loop of `performTopicModeling` with its executed body
count. -/
noncomputable def topicLoop (docM : List (List ℝ)) (numTerms : Nat) :
    Nat → List (List ℝ) → List (List ℝ) × Nat
  | 0, m => (m, 0)
  | n + 1, m =>
    let r := topicLoop docM numTerms n (topicStep docM numTerms m)
    (r.1, r.2 + 1)

/-- The iteration phase of `AdvancedNLPFeatures.performTopicModeling`: the
random initial topic-term matrix (one `Math.random()` entry per term) is the
`initRandom` parameter, sum-normalised exactly as in the source; the loop
runs on fuel 20.  The topic-extraction phase after the loop is straight-line
code and does not iterate, so it is irrelevant to the iteration count. -/
noncomputable def performTopicModelingRun (docM : List (List ℝ))
    (numTerms : Nat) (initRandom : List (List ℝ)) : List (List ℝ) × Nat :=
  topicLoop docM numTerms 20 (initRandom.map normalizeVectorSum)

/-! ### Claim C4: fixed iteration counts vs. the k-means convergence break -/

/-- The importance loop executes exactly its fuel count. -/
theorem importanceLoop_count (N : Nat) :
    ∀ (n : Nat) (g : KGraph), (importanceLoop N n g).2 = n := by
  intro n
  induction n with
  | zero => intro g; rfl
  | succ m ih =>
    intro g
    simp only [importanceLoop]
    rw [ih]

/-- The topic loop executes exactly its fuel count. -/
theorem topicLoop_count (docM : List (List ℝ)) (numTerms : Nat) :
    ∀ (n : Nat) (m : List (List ℝ)), (topicLoop docM numTerms n m).2 = n := by
  intro n
  induction n with
  | zero => intro m; rfl
  | succ j ih =>
    intro m
    simp only [topicLoop]
    rw [ih]

/-- The basis vector e₁ in the model's 768 dimensions. -/
def kmeansVec : List ℝ := 1 :: List.replicate 767 0

/-- A store holding exactly one embedding, with vector `kmeansVec`. -/
def kmeansStore : EmbStore :=
  [("e1", { id := "e1", vector := kmeansVec,
            metadata := { text := "t", mtype := "text",
                          source := none, timestamp := none } })]

/-- Folding squared accumulation over zeros changes nothing. -/
theorem foldl_sq_replicate_zero (n : Nat) (a : ℝ) :
    (List.replicate n (0:ℝ)).foldl (fun s x => s + x * x) a = a := by
  induction n generalizing a with
  | zero => rfl
  | succ m ih => simp [List.replicate_succ, List.foldl_cons, ih]

/-- The sum of squares of e₁ is 1. -/
theorem sumSq_kmeansVec : sumSq kmeansVec = 1 := by
  unfold sumSq kmeansVec
  rw [List.foldl_cons, foldl_sq_replicate_zero]
  norm_num

/-- Folding the pairwise product over `v.zip v` is the squared fold. -/
theorem zip_self_foldl (v : List ℝ) : ∀ a : ℝ,
    (v.zip v).foldl (fun s p => s + p.1 * p.2) a =
      v.foldl (fun s x => s + x * x) a := by
  induction v with
  | nil => intro a; rfl
  | cons x xs ih =>
    intro a
    simp only [List.zip_cons_cons, List.foldl_cons]
    exact ih _

/-- Cosine similarity of a vector with itself is 1 when its sum of squares
is nonzero. -/
theorem cosineSimilarity_self (v : List ℝ) (h : sumSq v ≠ 0) :
    cosineSimilarity v v = 1 := by
  have hnn := sumSq_nonneg v
  have hden : Real.sqrt (sumSq v) * Real.sqrt (sumSq v) = sumSq v :=
    Real.mul_self_sqrt hnn
  have hdenne : Real.sqrt (sumSq v) * Real.sqrt (sumSq v) ≠ 0 := by
    rw [hden]; exact h
  have hss : v.foldl (fun s x => s + x * x) 0 = sumSq v := rfl
  simp only [cosineSimilarity]
  rw [if_neg (show ¬v.length ≠ v.length by simp)]
  rw [zip_self_foldl, hss, if_neg hdenne, hden, div_self h]

/-- With a single centroid every point is assigned to cluster 0. -/
theorem closestCluster_single (v c : List ℝ) : closestCluster v [c] = 0 := rfl

/-- The single stored embedding lands in the single cluster. -/
theorem assignClusters_single :
    assignClusters kmeansStore [kmeansVec] 1 = [["e1"]] := by
  have hr : List.range 1 = [0] := rfl
  simp [assignClusters, kmeansStore, hr, closestCluster_single]

/-- Adding a vector entrywise onto matching zeros is the identity. -/
theorem zipWith_add_replicate_zero (v : List ℝ) :
    (List.replicate v.length (0:ℝ)).zipWith (· + ·) v = v := by
  induction v with
  | nil => rfl
  | cons x xs ih =>
    simp only [List.length_cons, List.replicate_succ, List.zipWith_cons_cons,
      zero_add, ih]

/-- e₁ is already L2-normalised. -/
theorem normalizeVector_kmeansVec : normalizeVector kmeansVec = kmeansVec := by
  simp only [normalizeVector, sumSq_kmeansVec, Real.sqrt_one]
  rw [if_neg one_ne_zero]
  simp

/-- Updating the single cluster's centroid reproduces e₁. -/
theorem updateCentroids_single :
    updateCentroids [["e1"]] kmeansStore 768 = [kmeansVec] := by
  have hlen : kmeansVec.length = 768 := by
    show (1 :: List.replicate 767 (0:ℝ)).length = 768
    rw [List.length_cons, List.length_replicate]
  have hzip : (List.replicate 768 (0:ℝ)).zipWith (· + ·) kmeansVec = kmeansVec := by
    rw [← hlen]; exact zipWith_add_replicate_zero kmeansVec
  have hone : ((((["e1"] : List String).length : ℕ) : ℝ)) = 1 := by norm_num
  have h : normalizeVector
      (((List.replicate 768 (0:ℝ)).zipWith (· + ·) kmeansVec).map
        (· / (((["e1"] : List String).length : ℕ) : ℝ))) = kmeansVec := by
    rw [hzip, hone]
    simp only [div_one, List.map_id']
    exact normalizeVector_kmeansVec
  simp only [updateCentroids, List.map_cons, List.map_nil]
  rw [if_neg (by decide : ¬(["e1"] : List String).length = 0)]
  simp only [List.foldl_cons, List.foldl_nil]
  exact congrArg (fun x => [x]) h

/-- The convergence test passes for identical centroids. -/
theorem kmeansConverged_single :
    kmeansConverged [kmeansVec] [kmeansVec] 1 = true := by
  have hr : List.range 1 = [0] := rfl
  have hcos : cosineSimilarity (([kmeansVec] : List (List ℝ)).getD 0 [])
      (([kmeansVec] : List (List ℝ)).getD 0 []) = 1 :=
    cosineSimilarity_self kmeansVec (by rw [sumSq_kmeansVec]; norm_num)
  simp only [kmeansConverged, hr, List.all_cons, List.all_nil, hcos,
    Bool.and_true]
  rw [if_neg (by norm_num : ¬(1:ℝ) < 99/100)]

/-- On the one-embedding store the k-means loop converges immediately: it
executes exactly one iteration of the fifty available. -/
theorem kmeansRun_singleton :
    (clusterEmbeddingsRun kmeansStore 1 [kmeansVec]).2.2 = 1 := by
  have hk : (if kmeansStore.length < 1 then kmeansStore.length else 1) = 1 := rfl
  simp only [clusterEmbeddingsRun, hk]
  rw [show (50 : Nat) = 49 + 1 from rfl]
  rw [kmeansLoop]
  simp only [show modelDimension = 768 from rfl, assignClusters_single,
    updateCentroids_single, kmeansConverged_single, if_true]

/-- **C4** (corrected).  The PageRank-style importance loop always executes
its full 50 iterations and the topic-modeling refinement always its full 20
— neither loop has an early exit — but the k-means loop of
`clusterEmbeddings`, contrary to the claim, performs a convergence check
(all centroid cosine similarities at least 0.99) followed by `break`: on a
store holding a single embedding it stops after 1 of the 50 iterations. -/
theorem c4_fixed_iteration_loops :
    (∀ g : KGraph, (calculateNodeImportanceRun g).2 = 50) ∧
    (∀ (docM : List (List ℝ)) (numTerms : Nat) (initRandom : List (List ℝ)),
      (performTopicModelingRun docM numTerms initRandom).2 = 20) ∧
    (clusterEmbeddingsRun kmeansStore 1 [kmeansVec]).2.2 = 1 :=
  ⟨fun g => importanceLoop_count g.nodes.length 50 _,
   fun docM numTerms initRandom =>
     topicLoop_count docM numTerms 20 (initRandom.map normalizeVectorSum),
   kmeansRun_singleton⟩

/-- **C4 counterexample**: `clusterEmbeddings` on a single-embedding store
runs 1 iteration, not the 50 the claim asserts every clustering run
performs. -/
theorem c4_counterexample :
    (clusterEmbeddingsRun kmeansStore 1 [kmeansVec]).2.2 = 1 ∧
    (clusterEmbeddingsRun kmeansStore 1 [kmeansVec]).2.2 ≠ 50 := by
  refine ⟨kmeansRun_singleton, ?_⟩
  rw [kmeansRun_singleton]
  decide

/-! ## Text similarity (`AdvancedNLPFeatures`) and claim C9 -/

/-- `AdvancedNLPFeatures.tokenize`: lowercase, replace punctuation by
spaces, split on whitespace.  Unlike the vector engine's tokenizer it does
NOT remove stopwords; the `length > 0` filter of the source is subsumed by
`splitWs` dropping empty fragments. -/
def nlpTokenize (text : String) : List String :=
  splitWs ((jsLower text).toList.map fun c =>
    if !(jsWord c) && !(jsSpace c) then ' ' else c)

/-- The stopword list of `AdvancedNLPFeatures.isStopword`. -/
def nlpStopwords : List String :=
  ["the", "is", "at", "which", "on", "and", "a", "an", "as", "are",
   "was", "were", "been", "be", "have", "has", "had", "do", "does",
   "did", "will", "would", "could", "should", "may", "might", "must",
   "shall", "can", "need", "ought", "to", "of", "in", "for", "with"]

/-- `AdvancedNLPFeatures.isStopword`. -/
def isStopword (w : String) : Bool := nlpStopwords.contains (jsLower w)

/-- The non-stopword tokens of a document, per the module's own
`isStopword` — the notion the claim's "shared non-stopword tokens" refers
to. -/
def nonStopTokens (text : String) : List String :=
  (nlpTokenize (jsLower text)).filter fun t => !(isStopword t)

/-- The union term iteration order of `computeCosineSimilarity`: keys of the
two term-frequency maps, first occurrence first. -/
def termList (t1 t2 : List String) : List String :=
  dedupFirst (dedupFirst t1 ++ dedupFirst t2)

/-- The dot product accumulated by `computeCosineSimilarity`; every addend
is a product of natural counts, so the float accumulation is exact. -/
def dotFreq (t1 t2 : List String) : Nat :=
  ((termList t1 t2).map fun t => t1.count t * t2.count t).sum

/-- The squared norm of the first frequency map. -/
def norm1Freq (t1 t2 : List String) : Nat :=
  ((termList t1 t2).map fun t => t1.count t * t1.count t).sum

/-- The squared norm of the second frequency map. -/
def norm2Freq (t1 t2 : List String) : Nat :=
  ((termList t1 t2).map fun t => t2.count t * t2.count t).sum

/-- `AdvancedNLPFeatures.computeCosineSimilarity` composed with
`getTermFrequencies`: the source's single loop over the union of keys
accumulates exactly `dotFreq`, `norm1Freq`, `norm2Freq`. -/
noncomputable def computeCosineSimilarityFreq (t1 t2 : List String) : ℝ :=
  let denominator :=
    Real.sqrt (norm1Freq t1 t2 : ℝ) * Real.sqrt (norm2Freq t1 t2 : ℝ)
  if denominator = 0 then 0 else (dotFreq t1 t2 : ℝ) / denominator

/-- `AdvancedNLPFeatures.computeTextSimilarity`: the mean of Jaccard
similarity over the deduplicated token sets and cosine similarity over term
frequencies.  `tokenize` lowercases its input itself, so the extra
`toLowerCase()` at the call site is modelled by the (idempotent) `jsLower`
argument. -/
noncomputable def computeTextSimilarity (text1 text2 : String) : ℝ :=
  let tokens1 := nlpTokenize (jsLower text1)
  let tokens2 := nlpTokenize (jsLower text2)
  let set1 := dedupFirst tokens1
  let set2 := dedupFirst tokens2
  let intersection := set1.filter fun x => set2.contains x
  let union := dedupFirst (set1 ++ set2)
  let jaccard : ℝ := (intersection.length : ℝ) / (union.length : ℝ)
  (jaccard + computeCosineSimilarityFreq tokens1 tokens2) / 2

/-- Membership in `dedupGo`: kept iff present and not already seen. -/
theorem mem_dedupGo (a : String) : ∀ (seen l : List String),
    a ∈ dedupGo seen l ↔ a ∈ l ∧ a ∉ seen := by
  intro seen l
  induction l generalizing seen with
  | nil => simp [dedupGo]
  | cons x xs ih =>
    simp only [dedupGo]
    by_cases hx : seen.contains x = true
    · have hxs : x ∈ seen := List.elem_iff.mp hx
      rw [if_pos hx, ih, List.mem_cons]
      constructor
      · rintro ⟨h1, h2⟩
        exact ⟨Or.inr h1, h2⟩
      · rintro ⟨h1, h2⟩
        rcases h1 with rfl | h1
        · exact absurd hxs h2
        · exact ⟨h1, h2⟩
    · have hxs : x ∉ seen := fun hmem => hx (List.elem_iff.mpr hmem)
      rw [if_neg hx]
      simp only [List.mem_cons, ih, List.mem_cons]
      constructor
      · rintro (rfl | ⟨h1, h2⟩)
        · exact ⟨Or.inl rfl, hxs⟩
        · exact ⟨Or.inr h1, fun hc => h2 (Or.inr hc)⟩
      · rintro ⟨h1, h2⟩
        rcases h1 with rfl | h1
        · exact Or.inl rfl
        · by_cases hax : a = x
          · exact Or.inl hax
          · exact Or.inr ⟨h1, fun hc => hc.elim hax h2⟩

/-- Deduplication preserves membership. -/
theorem mem_dedupFirst (a : String) (l : List String) :
    a ∈ dedupFirst l ↔ a ∈ l := by
  rw [dedupFirst, mem_dedupGo]
  simp

/-- Evaluation of `computeTextSimilarity` on the claim's scenario: Jaccard
is 1/3 (shared "the" over three distinct tokens) and the frequency cosine is
1/2, so the result is 5/12. -/
theorem computeTextSimilarity_thecat_thedog :
    computeTextSimilarity "the cat" "the dog" = 5 / 12 := by
  have h1 : nlpTokenize (jsLower "the cat") = ["the", "cat"] := by decide
  have h2 : nlpTokenize (jsLower "the dog") = ["the", "dog"] := by decide
  have hs1 : dedupFirst ["the", "cat"] = ["the", "cat"] := by decide
  have hs2 : dedupFirst ["the", "dog"] = ["the", "dog"] := by decide
  have hint : ((["the", "cat"] : List String).filter fun x =>
      (["the", "dog"] : List String).contains x) = ["the"] := by decide
  have huni : dedupFirst (["the", "cat"] ++ ["the", "dog"]) =
      ["the", "cat", "dog"] := by decide
  have hdot : dotFreq ["the", "cat"] ["the", "dog"] = 1 := by decide
  have hn1 : norm1Freq ["the", "cat"] ["the", "dog"] = 2 := by decide
  have hn2 : norm2Freq ["the", "cat"] ["the", "dog"] = 2 := by decide
  have hsq : Real.sqrt (((2:ℕ):ℝ)) * Real.sqrt (((2:ℕ):ℝ)) = 2 := by
    rw [show ((2:ℕ):ℝ) = 2 by norm_num]
    exact Real.mul_self_sqrt (by norm_num)
  have hcos : computeCosineSimilarityFreq ["the", "cat"] ["the", "dog"] =
      1 / 2 := by
    simp only [computeCosineSimilarityFreq, hdot, hn1, hn2, hsq]
    rw [if_neg (by norm_num : ¬(2:ℝ) = 0)]
    norm_num
  simp only [computeTextSimilarity, h1, h2, hs1, hs2, hint, huni, hcos]
  norm_num

/-- **C9 counterexample**: "the cat" and "the dog" share zero non-stopword
tokens (their only common token, "the", is a stopword), yet
`computeTextSimilarity` returns 5/12, not 0 — its tokenizer never removes
stopwords, so the shared stopword feeds both the Jaccard and the cosine
component. -/
theorem c9_counterexample :
    ((nonStopTokens "the cat").filter (fun t =>
      (nonStopTokens "the dog").contains t) = []) ∧
    computeTextSimilarity "the cat" "the dog" = 5 / 12 ∧
    computeTextSimilarity "the cat" "the dog" ≠ 0 := by
  refine ⟨by decide, computeTextSimilarity_thecat_thedog, ?_⟩
  rw [computeTextSimilarity_thecat_thedog]
  norm_num

/-- **C9** (amended).  If the documents share no token at all — stopwords
included — and at least one token exists, `computeTextSimilarity` returns
exactly 0: the Jaccard numerator is an empty intersection and every term of
the cosine dot product has a zero factor, while the zero-denominator guard
(and, in the exact-real model, `x / 0 = 0`) keeps the result finite. -/
theorem c9_disjoint_docs_zero_similarity (text1 text2 : String)
    (hdisj : (nlpTokenize (jsLower text1)).filter (fun t =>
      (nlpTokenize (jsLower text2)).contains t) = [])
    (_hne : nlpTokenize (jsLower text1) ++ nlpTokenize (jsLower text2) ≠ []) :
    computeTextSimilarity text1 text2 = 0 := by
  have hdisj' : ∀ t ∈ nlpTokenize (jsLower text1),
      t ∉ nlpTokenize (jsLower text2) := by
    intro t ht hmem
    have := List.filter_eq_nil_iff.mp hdisj t ht
    exact this (List.elem_iff.mpr hmem)
  have hint : ((dedupFirst (nlpTokenize (jsLower text1))).filter fun x =>
      (dedupFirst (nlpTokenize (jsLower text2))).contains x) = [] := by
    apply List.filter_eq_nil_iff.mpr
    intro x hx hc
    have hx1 : x ∈ nlpTokenize (jsLower text1) := (mem_dedupFirst _ _).mp hx
    have hx2 : x ∈ nlpTokenize (jsLower text2) :=
      (mem_dedupFirst _ _).mp (List.elem_iff.mp hc)
    exact hdisj' x hx1 hx2
  have hdot : dotFreq (nlpTokenize (jsLower text1))
      (nlpTokenize (jsLower text2)) = 0 := by
    apply List.sum_eq_zero
    intro n hn
    rcases List.mem_map.mp hn with ⟨t, _, rfl⟩
    by_cases hc : (nlpTokenize (jsLower text1)).count t = 0
    · rw [hc, Nat.zero_mul]
    · have ht1 : t ∈ nlpTokenize (jsLower text1) := by
        by_contra hmem
        exact hc (List.count_eq_zero.mpr hmem)
      have ht2 : (nlpTokenize (jsLower text2)).count t = 0 :=
        List.count_eq_zero.mpr (hdisj' t ht1)
      rw [ht2, Nat.mul_zero]
  have hcos : computeCosineSimilarityFreq (nlpTokenize (jsLower text1))
      (nlpTokenize (jsLower text2)) = 0 := by
    simp only [computeCosineSimilarityFreq, hdot, Nat.cast_zero]
    split
    · rfl
    · exact zero_div _
  simp only [computeTextSimilarity, hint, hcos, List.length_nil,
    Nat.cast_zero, zero_div, add_zero, zero_add]

/-- Witness for C9's amended theorem: "cat" and "dog" share no token, so
their similarity is exactly 0. -/
theorem c9_witness : computeTextSimilarity "cat" "dog" = 0 :=
  c9_disjoint_docs_zero_similarity "cat" "dog" (by decide) (by decide)

/-! ## ML recommendation engine
(`app/lib/intelligence/ml-recommendation-engine.ts`) and claim C5

`recommendSchema` first builds a score map (pattern matches, feature
scorers, URL and entity adjustments) and then converts it to
recommendations.  The conversion/sort/fallback/truncation stage — the
subject of claim C5 — is embedded below over an arbitrary score map
`scores` (in Map insertion order), so the theorem covers every score map
the scoring passes can produce.  The presentational `reasoning` string is
omitted from the model. -/

/-- A schema recommendation (without the presentational `reasoning`). -/
structure SchemaRecommendation where
  schemaType : String
  confidence : ℚ
  suggestedProperties : List String
  relatedTypes : List String
deriving Repr, DecidableEq

/-- The static property lookup of `getSuggestedProperties`. -/
def propertyMap : List (String × List String) :=
  [("Recipe", ["name", "image", "recipeIngredient", "recipeInstructions",
    "prepTime", "cookTime", "totalTime", "recipeYield", "nutrition",
    "recipeCategory", "recipeCuisine"]),
   ("HowTo", ["name", "description", "step", "totalTime", "supply", "tool",
    "image", "video"]),
   ("Product", ["name", "description", "image", "brand", "offers",
    "aggregateRating", "review", "sku", "mpn", "category"]),
   ("Review", ["itemReviewed", "reviewRating", "name", "author",
    "datePublished", "reviewBody", "publisher"]),
   ("Event", ["name", "startDate", "endDate", "location", "image",
    "description", "offers", "performer", "organizer"]),
   ("FAQ", ["mainEntity", "name", "acceptedAnswer", "text"]),
   ("JobPosting", ["title", "description", "datePosted", "validThrough",
    "employmentType", "hiringOrganization", "jobLocation", "baseSalary",
    "qualifications", "responsibilities"]),
   ("Course", ["name", "description", "provider", "courseCode",
    "coursePrerequisites", "educationalCredentialAwarded",
    "hasCourseInstance"]),
   ("LocalBusiness", ["name", "address", "telephone", "openingHours",
    "image", "priceRange", "servesCuisine", "hasMenu"]),
   ("VideoObject", ["name", "description", "thumbnailUrl", "uploadDate",
    "duration", "embedUrl", "contentUrl", "transcript"]),
   ("Article", ["headline", "description", "author", "datePublished",
    "dateModified", "publisher", "image", "articleBody"]),
   ("BlogPosting", ["headline", "description", "author", "datePublished",
    "dateModified", "publisher", "image", "articleBody", "keywords"])]

/-- `MLRecommendationEngine.getSuggestedProperties`: table lookup, falling
back to the `Article` row. -/
def getSuggestedProperties (schemaType : String) : List String :=
  (propertyMap.lookup schemaType).getD
    ((propertyMap.lookup "Article").getD [])

/-- The static related-type lookup of `getRelatedTypes`. -/
def relatedMap : List (String × List String) :=
  [("Recipe", ["Article", "CreativeWork"]),
   ("HowTo", ["Article", "CreativeWork"]),
   ("Product", ["Thing", "Offer"]),
   ("Review", ["Article", "CreativeWork", "Rating"]),
   ("Event", ["Thing", "Place"]),
   ("FAQ", ["WebPage", "QAPage"]),
   ("JobPosting", ["Intangible", "Organization"]),
   ("Course", ["CreativeWork", "EducationalOrganization"]),
   ("LocalBusiness", ["Organization", "Place"]),
   ("VideoObject", ["MediaObject", "CreativeWork"]),
   ("Article", ["CreativeWork", "WebPage"]),
   ("BlogPosting", ["Article", "CreativeWork"])]

/-- `MLRecommendationEngine.getRelatedTypes`: table lookup with `['Thing']`
default. -/
def getRelatedTypes (schemaType : String) : List String :=
  (relatedMap.lookup schemaType).getD ["Thing"]

/-- Stable insertion descending by confidence (JS stable `sort` with
comparator `b.confidence - a.confidence`). -/
def insertByConfDescRec (x : SchemaRecommendation) :
    List SchemaRecommendation → List SchemaRecommendation
  | [] => [x]
  | y :: ys =>
    if x.confidence ≤ y.confidence then y :: insertByConfDescRec x ys
    else x :: y :: ys

/-- Stable descending sort by confidence. -/
def sortByConfDescRec (l : List SchemaRecommendation) :
    List SchemaRecommendation :=
  l.foldl (fun acc x => insertByConfDescRec x acc) []

/-- The candidate conversion loop of `recommendSchema`: keep score-map
entries scoring strictly above 0.3, with confidence `Math.min(score, 1)` and
the two static lookups. -/
def qualifiedRecs (scores : List (String × ℚ)) : List SchemaRecommendation :=
  scores.filterMap fun sc =>
    if sc.2 > mkRat 3 10 then
      some { schemaType := sc.1, confidence := min sc.2 1,
             suggestedProperties := getSuggestedProperties sc.1,
             relatedTypes := getRelatedTypes sc.1 }
    else none

/-- The fallback recommendation of `recommendSchema`: `BlogPosting` when the
URL contains `/blog` (no lowercasing at this call site), else `Article`,
confidence 0.5, related types `['WebPage', 'CreativeWork']`. -/
def fallbackRec (url : String) : SchemaRecommendation :=
  let fallbackType := if jsIncludes url "/blog" then "BlogPosting" else "Article"
  { schemaType := fallbackType, confidence := mkRat 1 2,
    suggestedProperties := getSuggestedProperties fallbackType,
    relatedTypes := ["WebPage", "CreativeWork"] }

/-- `MLRecommendationEngine.recommendSchema` from the produced score map:
filter above 0.3, sort descending, `unshift` the fallback when there is no
candidate or the best one's confidence is below 0.5, take the top 3. -/
def recommendSchema (scores : List (String × ℚ)) (url : String) :
    List SchemaRecommendation :=
  let sorted := sortByConfDescRec (qualifiedRecs scores)
  let withFallback :=
    if sorted.length = 0 ∨
        (sorted.headD (fallbackRec url)).confidence < mkRat 1 2 then
      fallbackRec url :: sorted
    else sorted
  withFallback.take 3

/-- Membership through stable insertion. -/
theorem mem_insertByConfDescRec (x : SchemaRecommendation)
    (l : List SchemaRecommendation) (y : SchemaRecommendation) :
    y ∈ insertByConfDescRec x l ↔ y = x ∨ y ∈ l := by
  induction l with
  | nil => simp [insertByConfDescRec]
  | cons z zs ih =>
    simp only [insertByConfDescRec]
    split
    · simp only [List.mem_cons, ih]
      tauto
    · simp only [List.mem_cons]

/-- Stable insertion preserves descending order. -/
theorem pairwise_insertByConfDescRec (x : SchemaRecommendation)
    (l : List SchemaRecommendation)
    (h : l.Pairwise fun a b => b.confidence ≤ a.confidence) :
    (insertByConfDescRec x l).Pairwise
      fun a b => b.confidence ≤ a.confidence := by
  induction l with
  | nil => simp [insertByConfDescRec]
  | cons z zs ih =>
    rcases List.pairwise_cons.mp h with ⟨hz, hzs⟩
    simp only [insertByConfDescRec]
    split
    · rename_i hle
      apply List.pairwise_cons.mpr
      refine ⟨?_, ih hzs⟩
      intro b hb
      rcases (mem_insertByConfDescRec x zs b).mp hb with rfl | hb
      · exact hle
      · exact hz b hb
    · rename_i hgt
      push_neg at hgt
      apply List.pairwise_cons.mpr
      refine ⟨?_, h⟩
      intro b hb
      rcases List.mem_cons.mp hb with rfl | hb
      · exact le_of_lt hgt
      · exact le_trans (hz b hb) (le_of_lt hgt)

/-- The insertion sort output is descending. -/
theorem sortByConfDescRec_pairwise (l : List SchemaRecommendation) :
    (sortByConfDescRec l).Pairwise
      fun a b => b.confidence ≤ a.confidence := by
  have hgen : ∀ (l acc : List SchemaRecommendation),
      acc.Pairwise (fun a b => b.confidence ≤ a.confidence) →
      (l.foldl (fun acc x => insertByConfDescRec x acc) acc).Pairwise
        fun a b => b.confidence ≤ a.confidence := by
    intro l
    induction l with
    | nil => intro acc h; exact h
    | cons x xs ih =>
      intro acc h
      exact ih _ (pairwise_insertByConfDescRec x acc h)
  exact hgen l [] (by simp)

/-- The insertion sort permutes membership. -/
theorem mem_sortByConfDescRec (l : List SchemaRecommendation)
    (y : SchemaRecommendation) : y ∈ sortByConfDescRec l ↔ y ∈ l := by
  have hgen : ∀ (l acc : List SchemaRecommendation) (y : SchemaRecommendation),
      y ∈ l.foldl (fun acc x => insertByConfDescRec x acc) acc ↔
        y ∈ acc ∨ y ∈ l := by
    intro l
    induction l with
    | nil => intro acc y; simp
    | cons x xs ih =>
      intro acc y
      rw [List.foldl_cons, ih, mem_insertByConfDescRec]
      constructor
      · rintro ((rfl | h) | h)
        · exact Or.inr (List.mem_cons_self _ _)
        · exact Or.inl h
        · exact Or.inr (List.mem_cons_of_mem _ h)
      · rintro (h | h)
        · exact Or.inl (Or.inr h)
        · rcases List.mem_cons.mp h with rfl | h
          · exact Or.inl (Or.inl rfl)
          · exact Or.inr h
  rw [sortByConfDescRec, hgen]
  simp

/-- Every member of a descending list is bounded by its head. -/
theorem pairwise_le_headD (l : List SchemaRecommendation)
    (d : SchemaRecommendation)
    (h : l.Pairwise fun a b => b.confidence ≤ a.confidence) :
    ∀ b ∈ l, b.confidence ≤ (l.headD d).confidence := by
  cases l with
  | nil => intro b hb; cases hb
  | cons x xs =>
    intro b hb
    rcases List.mem_cons.mp hb with rfl | hb
    · exact le_refl _
    · exact (List.pairwise_cons.mp h).1 b hb

/-- **C5.** `recommendSchema` returns at most 3 recommendations, in
descending confidence order; every returned recommendation is either the
fallback or a score-map candidate that scored strictly above 0.3, carried
with confidence `min(score, 1)` and the static property/related lookups;
whenever no candidate qualifies or the best sorted candidate's confidence
is below 0.5, the fallback — `BlogPosting` if the URL contains `/blog`,
else `Article`, confidence 0.5 — sits at the head of the output. -/
theorem c5_recommendSchema_shape (scores : List (String × ℚ)) (url : String) :
    (recommendSchema scores url).length ≤ 3 ∧
    (recommendSchema scores url).Pairwise
      (fun a b => b.confidence ≤ a.confidence) ∧
    (∀ r ∈ recommendSchema scores url,
      r = fallbackRec url ∨
      ∃ s : ℚ, (r.schemaType, s) ∈ scores ∧ s > mkRat 3 10 ∧
        r.confidence = min s 1 ∧
        r.suggestedProperties = getSuggestedProperties r.schemaType ∧
        r.relatedTypes = getRelatedTypes r.schemaType) ∧
    (((sortByConfDescRec (qualifiedRecs scores)).length = 0 ∨
      ((sortByConfDescRec (qualifiedRecs scores)).headD
        (fallbackRec url)).confidence < mkRat 1 2) →
      (recommendSchema scores url).head? = some (fallbackRec url)) ∧
    (fallbackRec url).confidence = mkRat 1 2 ∧
    (fallbackRec url).schemaType =
      (if jsIncludes url "/blog" then "BlogPosting" else "Article") := by
  have hqual : ∀ r ∈ sortByConfDescRec (qualifiedRecs scores),
      ∃ s : ℚ, (r.schemaType, s) ∈ scores ∧ s > mkRat 3 10 ∧
        r.confidence = min s 1 ∧
        r.suggestedProperties = getSuggestedProperties r.schemaType ∧
        r.relatedTypes = getRelatedTypes r.schemaType := by
    intro r hmem
    rw [mem_sortByConfDescRec] at hmem
    rcases List.mem_filterMap.mp hmem with ⟨sc, hsc, hf⟩
    by_cases hgt : sc.2 > mkRat 3 10
    · rw [if_pos hgt] at hf
      obtain rfl := Option.some.inj hf
      exact ⟨sc.2, hsc, hgt, rfl, rfl, rfl⟩
    · rw [if_neg hgt] at hf
      cases hf
  refine ⟨?_, ?_, ?_, ?_, rfl, rfl⟩
  · simp only [recommendSchema]
    rw [List.length_take]
    exact min_le_left _ _
  · simp only [recommendSchema]
    apply List.Pairwise.sublist (List.take_sublist _ _)
    by_cases hcond : (sortByConfDescRec (qualifiedRecs scores)).length = 0 ∨
        ((sortByConfDescRec (qualifiedRecs scores)).headD
          (fallbackRec url)).confidence < mkRat 1 2
    · rw [if_pos hcond]
      apply List.pairwise_cons.mpr
      refine ⟨?_, sortByConfDescRec_pairwise _⟩
      intro b hb
      rcases hcond with h0 | hhead
      · rw [List.length_eq_zero] at h0
        rw [h0] at hb
        cases hb
      · exact le_trans
          (pairwise_le_headD _ _ (sortByConfDescRec_pairwise _) b hb)
          (le_of_lt hhead)
    · rw [if_neg hcond]
      exact sortByConfDescRec_pairwise _
  · intro r hr
    simp only [recommendSchema] at hr
    have hr' := List.mem_of_mem_take hr
    by_cases hcond : (sortByConfDescRec (qualifiedRecs scores)).length = 0 ∨
        ((sortByConfDescRec (qualifiedRecs scores)).headD
          (fallbackRec url)).confidence < mkRat 1 2
    · rw [if_pos hcond] at hr'
      rcases List.mem_cons.mp hr' with rfl | hm
      · exact Or.inl rfl
      · exact Or.inr (hqual r hm)
    · rw [if_neg hcond] at hr'
      exact Or.inr (hqual r hr')
  · intro hcond
    simp only [recommendSchema]
    rw [if_pos hcond]
    rfl

/-- Witness for C5: a single candidate scoring 0.4 qualifies but stays below
the 0.5 floor, so the `Article` fallback heads the output. -/
theorem c5_witness :
    (recommendSchema [("Recipe", mkRat 2 5)] "https://x.com/a").head? =
      some (fallbackRec "https://x.com/a") :=
  (c5_recommendSchema_shape [("Recipe", mkRat 2 5)]
    "https://x.com/a").2.2.2.1 (by decide)

end SchemaGenius
